import Mathlib

/-!
Verification of the core audio path of the `sasa` audio engine.

The Rust source is shallowly embedded: `f32`/`f64` values are modelled as
exact rationals (`ℚ`), machine integers as `ℕ`/`ℤ` with the Rust casts made
explicit, the lock-free SPSC queues as Lean lists drained in FIFO order, and
`Arc`/`Weak` shared cells as `Option`-valued state owned by the renderer
(`none` models a dropped handle).
-/

set_option autoImplicit false

namespace Sasa

/-- Rust `x as usize` on a float: truncation toward zero, saturating at 0
for negative inputs (modelled on ℚ; the upper saturation bound is ignored). -/
def f32toUsize (x : ℚ) : ℕ := ⌊x⌋.toNat

/-- Rust `f32::round`: round half away from zero. -/
def rustRound (x : ℚ) : ℤ := if x < 0 then -(round (-x)) else round x

/-- Rust `x.round() as usize`: round, then saturate negatives to 0. -/
def rustRoundUsize (x : ℚ) : ℕ := (rustRound x).toNat

/-- Model of `Frame` from `lib.rs`: one stereo sample pair
(`pub struct Frame(pub f32, pub f32)`). -/
structure Frame where
  l : ℚ
  r : ℚ
deriving DecidableEq

instance : Inhabited Frame := ⟨⟨0, 0⟩⟩

/-- Model of `Frame::avg`. -/
def Frame.avg (f : Frame) : ℚ := (f.l + f.r) / 2

/-- Model of `Frame::interpolate`. -/
def Frame.interpolate (f other : Frame) (t : ℚ) : Frame :=
  ⟨f.l + (other.l - f.l) * t, f.r + (other.r - f.r) * t⟩

/-- Model of `impl Add for Frame`. -/
instance : Add Frame := ⟨fun a b => ⟨a.l + b.l, a.r + b.r⟩⟩

/-- Model of `impl Mul<f32> for Frame`. -/
instance : HMul Frame ℚ Frame := ⟨fun a c => ⟨a.l * c, a.r * c⟩⟩

/-- Model of `AudioClip` (`clip.rs`): immutable PCM frames plus the
authoring sample rate. -/
structure AudioClip where
  frames : List Frame
  sample_rate : ℕ
deriving DecidableEq

/-- Model of `AudioClip::sample`: linear-interpolating random access at a
time in seconds.  `position as usize` is the saturating float-to-usize
cast. -/
def AudioClip.sample (c : AudioClip) (position : ℚ) : Option Frame :=
  let position := position * (c.sample_rate : ℚ)
  let actual_index := f32toUsize position
  match c.frames[actual_index]? with
  | some frame =>
      let next_frame := (c.frames[actual_index + 1]?).getD frame
      some (frame.interpolate next_frame (position - (actual_index : ℚ)))
  | none => none

/-- Model of `AudioClip::frame_count`. -/
def AudioClip.frame_count (c : AudioClip) : ℕ := c.frames.length

/-- Model of `AudioClip::length` = `frame_count / sample_rate`. -/
def AudioClip.length (c : AudioClip) : ℚ :=
  (c.frame_count : ℚ) / (c.sample_rate : ℚ)

/-! ## LatencyRecorder (`lib.rs`) -/

/-- Value of `LATENCY_RECORD_NUM`. -/
def LATENCY_RECORD_NUM : ℕ := 64

/-- Model of `LatencyRecorder`: the fixed ring, head index, running sum,
fullness flag, and the value last stored into the shared atomic
(`result`). -/
structure LatencyRecorder where
  records : List ℚ
  head : ℕ
  sum : ℚ
  full : Bool
  result : ℚ
deriving DecidableEq

/-- Model of `LatencyRecorder::new` (fresh ring, zero atomic). -/
def LatencyRecorder.new : LatencyRecorder :=
  ⟨List.replicate LATENCY_RECORD_NUM 0, 0, 0, false, 0⟩

/-- Model of `LatencyRecorder::push`. -/
def LatencyRecorder.push (s : LatencyRecorder) (record : ℚ) : LatencyRecorder :=
  let place := s.records.getD s.head 0
  let sum := s.sum + (record - place)
  let records := s.records.set s.head record
  let head := s.head + 1
  let hf := if head = LATENCY_RECORD_NUM then ((0 : ℕ), true) else (head, s.full)
  let avg := sum / (if hf.2 then (LATENCY_RECORD_NUM : ℚ) else ((max hf.1 1 : ℕ) : ℚ))
  { records := records, head := hf.1, sum := sum, full := hf.2, result := avg }

/-- Left fold of `push` over a list of latency samples. -/
def LatencyRecorder.pushAll (s : LatencyRecorder) (xs : List ℚ) : LatencyRecorder :=
  xs.foldl LatencyRecorder.push s

/-- The last `n` elements of a list. -/
def lastN (n : ℕ) (xs : List ℚ) : List ℚ := xs.drop (xs.length - n)

/-- The content of ring slot `j` after the samples `xs` have been pushed
into a fresh ring of `LATENCY_RECORD_NUM` slots: the most recent sample
written at slot `j`, or `0` if the slot was never written. -/
def ringCell (xs : List ℚ) (j : ℕ) : ℚ :=
  if j < xs.length % LATENCY_RECORD_NUM then
    xs.getD (xs.length - xs.length % LATENCY_RECORD_NUM + j) 0
  else if LATENCY_RECORD_NUM ≤ xs.length then
    xs.getD (xs.length - xs.length % LATENCY_RECORD_NUM + j - LATENCY_RECORD_NUM) 0
  else 0

/-! ## MusicRenderer (`renderer/music.rs`) -/

/-- Model of `MusicParams`. -/
structure MusicParams where
  loop_mix_time : ℚ
  amplifier : ℚ
  playback_rate : ℚ
  command_buffer_size : ℕ
deriving DecidableEq

/-- Model of `MusicParams::default`. -/
def MusicParams.default : MusicParams := ⟨-1, 1, 1, 16⟩

/-- Model of `SharedState`: the two atomics shared between the `Music`
handle and its renderer. -/
structure SharedState where
  position : ℚ
  paused : Bool
deriving DecidableEq

/-- Model of `MusicCommand`. -/
inductive MusicCommand where
  | pause
  | resume
  | setAmplifier (amp : ℚ)
  | seekTo (position : ℚ)
  | setLowPass (low_pass : ℚ)
  | fadeIn (time : ℚ)
  | fadeOut (time : ℚ)
deriving DecidableEq

/-- Model of `MusicRenderer`.  The `Weak<SharedState>` is modelled as
`Option SharedState` owned here (`none` = the `Music` handle was dropped,
so `upgrade()` fails and `strong_count() == 0`); `cons` is the pending
command queue, drained in FIFO order. -/
structure MusicRenderer where
  clip : AudioClip
  settings : MusicParams
  state : Option SharedState
  cons : List MusicCommand
  paused : Bool
  index : ℕ
  last_sample_rate : ℕ
  low_pass : ℚ
  last_output : Frame
  fade_time : ℤ
  fade_current : ℤ
deriving DecidableEq

/-- Effect of `state.upgrade()` followed by `state.paused.store(b)`. -/
def storePaused (st : Option SharedState) (b : Bool) : Option SharedState :=
  st.map fun s => { s with paused := b }

/-- Model of one arm of the command match inside `MusicRenderer::prepare`. -/
def MusicRenderer.applyCommand (r : MusicRenderer) (sample_rate : ℕ) :
    MusicCommand → MusicRenderer
  | .pause => { r with paused := true, state := storePaused r.state true }
  | .resume => { r with paused := false, state := storePaused r.state false }
  | .setAmplifier amp => { r with settings := { r.settings with amplifier := amp } }
  | .seekTo position =>
      { r with index :=
          rustRoundUsize (position * (sample_rate : ℚ) / r.settings.playback_rate) }
  | .setLowPass low_pass => { r with low_pass := low_pass }
  | .fadeIn time =>
      let r := if r.paused
        then { r with paused := false, state := storePaused r.state false }
        else r
      { r with fade_time := rustRound (time * (sample_rate : ℚ)), fade_current := 0 }
  | .fadeOut time =>
      { r with fade_time := rustRound (-time * (sample_rate : ℚ)), fade_current := 0 }

/-- Model of `MusicRenderer::prepare`: sample-rate adaptation, then drain
the command queue in FIFO order. -/
def MusicRenderer.prepare (r : MusicRenderer) (sample_rate : ℕ) : MusicRenderer :=
  let r :=
    if r.last_sample_rate ≠ sample_rate then
      let factor : ℚ := (sample_rate : ℚ) / (r.last_sample_rate : ℚ)
      { r with index := rustRoundUsize ((r.index : ℚ) * factor),
               last_sample_rate := sample_rate,
               fade_time := rustRound ((r.fade_time : ℚ) * factor),
               fade_current := rustRound ((r.fade_current : ℚ) * factor) }
    else r
  (r.cons.foldl (fun acc c => acc.applyCommand sample_rate c) { r with cons := [] })

/-- The loop cross-mix block at the top of `MusicRenderer::frame`'s
successful-sample branch. -/
def MusicRenderer.crossMixed (r : MusicRenderer) (position : ℚ) (frame : Frame) : Frame :=
  if 0 ≤ r.settings.loop_mix_time then
    let pos := position + r.settings.loop_mix_time - r.clip.length
    if 0 ≤ pos then
      match r.clip.sample pos with
      | some new_frame => frame + new_frame
      | none => frame
    else frame
  else frame

/-- Model of `MusicRenderer::frame`: sample, loop cross-mix, index advance,
fade envelope, or the wrap / exhaustion fallbacks. -/
def MusicRenderer.frame (r0 : MusicRenderer) (position delta : ℚ) :
    Option Frame × MusicRenderer :=
  match r0.clip.sample position with
  | some frame =>
      let frame := r0.crossMixed position frame
      let r1 := { r0 with index := r0.index + 1 }
      if r1.fade_time ≠ 0 then
        if 0 < r1.fade_time then
          let fc : ℤ := r1.fade_current + 1
          if r1.fade_time ≤ fc then
            (some (frame * r1.settings.amplifier),
             { r1 with fade_current := fc, fade_time := 0 })
          else
            (some (frame * (r1.settings.amplifier * ((fc : ℚ) / (r1.fade_time : ℚ)))),
             { r1 with fade_current := fc })
        else
          let fc : ℤ := r1.fade_current - 1
          if fc ≤ r1.fade_time then
            (none, { r1 with fade_current := fc, fade_time := 0, paused := true,
                             state := storePaused r1.state true })
          else
            (some (frame * (r1.settings.amplifier * (1 - (fc : ℚ) / (r1.fade_time : ℚ)))),
             { r1 with fade_current := fc })
      else
        (some (frame * r1.settings.amplifier), r1)
  | none =>
      if 0 ≤ r0.settings.loop_mix_time then
        let position := position - r0.clip.length + r0.settings.loop_mix_time
        let r1 := { r0 with index := rustRoundUsize (position / delta) }
        (some (match r1.clip.sample position with
               | some f => f * r1.settings.amplifier
               | none => (⟨0, 0⟩ : Frame)), r1)
      else
        (none, { r0 with paused := true })

/-- Model of `MusicRenderer::position`. -/
def MusicRenderer.position (r : MusicRenderer) (delta : ℚ) : ℚ :=
  (r.index : ℚ) * delta

/-- Model of `MusicRenderer::update_and_get`: the per-channel one-pole
low-pass, returning the new `last_output`. -/
def MusicRenderer.update_and_get (r : MusicRenderer) (frame : Frame) :
    Frame × MusicRenderer :=
  let out := r.last_output * r.low_pass + frame * (1 - r.low_pass)
  (out, { r with last_output := out })

/-- The per-sample loop of `MusicRenderer::render_mono`: walk the output
buffer, adding `update_and_get(frame).avg()` per sample; on `None` stop,
leaving the rest of the buffer untouched.  `position` is the running f64
position local to the callback. -/
def MusicRenderer.renderLoopMono (r : MusicRenderer) (position delta : ℚ) :
    List ℚ → List ℚ × MusicRenderer
  | [] => ([], r)
  | sample :: rest =>
      match r.frame position delta with
      | (some frame, r1) =>
          let p := r1.update_and_get frame
          let q := p.2.renderLoopMono (position + delta) delta rest
          ((sample + p.1.avg) :: q.1, q.2)
      | (none, r1) => (sample :: rest, r1)

/-- The per-frame loop of `MusicRenderer::render_stereo`, over
`chunks_exact_mut(2)` of the interleaved buffer (a trailing odd sample is
not visited). -/
def MusicRenderer.renderLoopStereo (r : MusicRenderer) (position delta : ℚ) :
    List ℚ → List ℚ × MusicRenderer
  | a :: b :: rest =>
      match r.frame position delta with
      | (some frame, r1) =>
          let p := r1.update_and_get frame
          let q := p.2.renderLoopStereo (position + delta) delta rest
          ((a + p.1.l) :: (b + p.1.r) :: q.1, q.2)
      | (none, r1) => (a :: b :: rest, r1)
  | other => (other, r)

/-- Publication of `state.position` at the end of a render call. -/
def MusicRenderer.publishPosition (r : MusicRenderer) (delta : ℚ) : MusicRenderer :=
  { r with state := r.state.map fun s => { s with position := r.position delta } }

/-- Model of `MusicRenderer::render_mono` (`Renderer` impl). -/
def MusicRenderer.render_mono (r : MusicRenderer) (sample_rate : ℕ) (data : List ℚ) :
    List ℚ × MusicRenderer :=
  let r := r.prepare sample_rate
  if r.paused then (data, r)
  else
    let delta : ℚ := 1 / (sample_rate : ℚ) * r.settings.playback_rate
    let p := r.renderLoopMono ((r.index : ℚ) * delta) delta data
    (p.1, p.2.publishPosition delta)

/-- Model of `MusicRenderer::render_stereo` (`Renderer` impl). -/
def MusicRenderer.render_stereo (r : MusicRenderer) (sample_rate : ℕ) (data : List ℚ) :
    List ℚ × MusicRenderer :=
  let r := r.prepare sample_rate
  if r.paused then (data, r)
  else
    let delta : ℚ := 1 / (sample_rate : ℚ) * r.settings.playback_rate
    let p := r.renderLoopStereo ((r.index : ℚ) * delta) delta data
    (p.1, p.2.publishPosition delta)

/-- Model of `MusicRenderer::alive`: true iff the shared state still has a
strong reference, i.e. the `Music` handle is alive. -/
def MusicRenderer.alive (r : MusicRenderer) : Bool := r.state.isSome

/-- The renderer produced by `Music::new`, paired with a live handle. -/
def MusicRenderer.new (clip : AudioClip) (settings : MusicParams) : MusicRenderer :=
  { clip := clip, settings := settings,
    state := some { position := 0, paused := true }, cons := [],
    paused := true, index := 0, last_sample_rate := 1, low_pass := 0,
    last_output := ⟨0, 0⟩, fade_time := 0, fade_current := 0 }

/-- What `Music::paused` observes on the application thread: the shared
paused atomic (`none` once the handle side is modelled as dropped). -/
def musicHandlePaused (r : MusicRenderer) : Option Bool :=
  r.state.map SharedState.paused

/-! ## SfxRenderer (`renderer/sfx.rs`) -/

/-- Model of `PlaySfxParams`. -/
structure PlaySfxParams where
  amplifier : ℚ
deriving DecidableEq

/-- Model of `SfxRenderer`.  `arc_alive` models
`self.arc.strong_count() != 0` (the `Sfx` handle's strong marker); `cons`
is the `(position, params)` trigger queue, head first. -/
structure SfxRenderer where
  clip : AudioClip
  arc_alive : Bool
  cons : List (ℚ × PlaySfxParams)
deriving DecidableEq

/-- Model of `SfxRenderer::alive`. -/
def SfxRenderer.alive (r : SfxRenderer) : Bool :=
  !r.cons.isEmpty || r.arc_alive

/-- The inner loop of `SfxRenderer::render_mono` for one queue entry:
walk the whole output buffer from its start, adding
`frame.avg() * amplifier` per sample and advancing the position by `delta`;
on sample failure stop and report the entry finished. -/
def sfxEntryMono (clip : AudioClip) (delta amp : ℚ) :
    List ℚ → ℚ → List ℚ × ℚ × Bool
  | [], pos => ([], pos, false)
  | sample :: rest, pos =>
      match clip.sample pos with
      | some frame =>
          let q := sfxEntryMono clip delta amp rest (pos + delta)
          ((sample + frame.avg * amp) :: q.1, q.2)
      | none => (sample :: rest, pos, true)

/-- The outer loop of `SfxRenderer::render_mono` over `cons.iter_mut()`:
returns the buffer, the updated queue (positions updated in place), and
`pop_count`. -/
def sfxEntriesMono (clip : AudioClip) (delta : ℚ) :
    List (ℚ × PlaySfxParams) → List ℚ → List ℚ × List (ℚ × PlaySfxParams) × ℕ
  | [], data => (data, [], 0)
  | e :: rest, data =>
      let p := sfxEntryMono clip delta e.2.amplifier data e.1
      let q := sfxEntriesMono clip delta rest p.1
      (q.1, (p.2.1, e.2) :: q.2.1, (if p.2.2 then 1 else 0) + q.2.2)

/-- Model of `SfxRenderer::render_mono`: process every queue entry, then
`cons.advance(pop_count)` (drop `pop_count` entries from the head). -/
def SfxRenderer.render_mono (r : SfxRenderer) (sample_rate : ℕ) (data : List ℚ) :
    List ℚ × SfxRenderer :=
  let delta : ℚ := 1 / (sample_rate : ℚ)
  let q := sfxEntriesMono r.clip delta r.cons data
  (q.1, { r with cons := q.2.1.drop q.2.2 })

/-- The inner loop of `SfxRenderer::render_stereo` for one queue entry,
over `chunks_exact_mut(2)` of the interleaved buffer. -/
def sfxEntryStereo (clip : AudioClip) (delta amp : ℚ) :
    List ℚ → ℚ → List ℚ × ℚ × Bool
  | a :: b :: rest, pos =>
      match clip.sample pos with
      | some frame =>
          let q := sfxEntryStereo clip delta amp rest (pos + delta)
          ((a + frame.l * amp) :: (b + frame.r * amp) :: q.1, q.2)
      | none => (a :: b :: rest, pos, true)
  | other, pos => (other, pos, false)

/-- The outer loop of `SfxRenderer::render_stereo`. -/
def sfxEntriesStereo (clip : AudioClip) (delta : ℚ) :
    List (ℚ × PlaySfxParams) → List ℚ → List ℚ × List (ℚ × PlaySfxParams) × ℕ
  | [], data => (data, [], 0)
  | e :: rest, data =>
      let p := sfxEntryStereo clip delta e.2.amplifier data e.1
      let q := sfxEntriesStereo clip delta rest p.1
      (q.1, (p.2.1, e.2) :: q.2.1, (if p.2.2 then 1 else 0) + q.2.2)

/-- Model of `SfxRenderer::render_stereo`. -/
def SfxRenderer.render_stereo (r : SfxRenderer) (sample_rate : ℕ) (data : List ℚ) :
    List ℚ × SfxRenderer :=
  let delta : ℚ := 1 / (sample_rate : ℚ)
  let q := sfxEntriesStereo r.clip delta r.cons data
  (q.1, { r with cons := q.2.1.drop q.2.2 })

/-- Model of `Sfx::play`: push `(0., params)` at the queue's tail. -/
def sfxPlay (r : SfxRenderer) (params : PlaySfxParams) : SfxRenderer :=
  { r with cons := r.cons ++ [(0, params)] }

/-- Position-advance of one sfx queue entry across a buffer of `n` frames,
ignoring the audio data: the final position and whether the clip was
exhausted (`sample` returned none) during the walk. -/
def advancePos (clip : AudioClip) (delta : ℚ) : ℕ → ℚ → ℚ × Bool
  | 0, pos => (pos, false)
  | n + 1, pos =>
      match clip.sample pos with
      | some _ => advancePos clip delta n (pos + delta)
      | none => (pos, true)

/-- In-place update of one sfx queue entry by a callback of `n` frames. -/
def sfxEntryAfter (clip : AudioClip) (delta : ℚ) (n : ℕ) (e : ℚ × PlaySfxParams) :
    ℚ × PlaySfxParams :=
  ((advancePos clip delta n e.1).1, e.2)

/-- Whether one sfx queue entry finishes during a callback of `n` frames. -/
def sfxFinished (clip : AudioClip) (delta : ℚ) (n : ℕ) (e : ℚ × PlaySfxParams) : Bool :=
  (advancePos clip delta n e.1).2

/-- The reachable-queue invariant of an sfx trigger queue: positions are
non-negative and non-increasing from head (oldest) to tail (newest). -/
def SfxQueueInv (q : List (ℚ × PlaySfxParams)) : Prop :=
  q.Pairwise (fun a b => b.1 ≤ a.1) ∧ ∀ e ∈ q, 0 ≤ e.1

/-! ## Mixer (`mixer.rs`) -/

/-- The concrete `dyn Renderer` sources of this crate. -/
inductive Source where
  | music (r : MusicRenderer)
  | sfx (r : SfxRenderer)
deriving DecidableEq

/-- Dispatch of `Renderer::render_mono`. -/
def Source.render_mono : Source → ℕ → List ℚ → List ℚ × Source
  | .music r, sample_rate, data =>
      let p := r.render_mono sample_rate data
      (p.1, .music p.2)
  | .sfx r, sample_rate, data =>
      let p := r.render_mono sample_rate data
      (p.1, .sfx p.2)

/-- Dispatch of `Renderer::render_stereo`. -/
def Source.render_stereo : Source → ℕ → List ℚ → List ℚ × Source
  | .music r, sample_rate, data =>
      let p := r.render_stereo sample_rate data
      (p.1, .music p.2)
  | .sfx r, sample_rate, data =>
      let p := r.render_stereo sample_rate data
      (p.1, .sfx p.2)

/-- Dispatch of `Renderer::alive`. -/
def Source.alive : Source → Bool
  | .music r => r.alive
  | .sfx r => r.alive

/-- Model of `Mixer`: the owned source list and the consumer end of the
`AddRenderer` command queue (`cons`, FIFO head first). -/
structure Mixer where
  sample_rate : ℕ
  renderers : List Source
  cons : List Source

/-- Model of `Mixer::consume_commands`: drain pending `AddRenderer`
commands, appending each to `renderers` in FIFO order. -/
def Mixer.consume_commands (m : Mixer) : Mixer :=
  { m with renderers := m.renderers ++ m.cons, cons := [] }

/-- Model of `Vec::retain_mut` over the source list: render each source in
order into the threaded buffer, keeping it exactly when `alive()` returns
true after the call. -/
def retainRenderMono (sample_rate : ℕ) : List Source → List ℚ → List ℚ × List Source
  | [], data => (data, [])
  | s :: rest, data =>
      let p := s.render_mono sample_rate data
      let q := retainRenderMono sample_rate rest p.1
      (q.1, if p.2.alive then p.2 :: q.2 else q.2)

/-- Stereo version of `retainRenderMono`. -/
def retainRenderStereo (sample_rate : ℕ) : List Source → List ℚ → List ℚ × List Source
  | [], data => (data, [])
  | s :: rest, data =>
      let p := s.render_stereo sample_rate data
      let q := retainRenderStereo sample_rate rest p.1
      (q.1, if p.2.alive then p.2 :: q.2 else q.2)

/-- Model of `Mixer::render_mono`: drain commands, zero the buffer, render
every source in insertion order, pruning dead ones. -/
def Mixer.render_mono (m : Mixer) (data : List ℚ) : List ℚ × Mixer :=
  let m := m.consume_commands
  let p := retainRenderMono m.sample_rate m.renderers (List.replicate data.length 0)
  (p.1, { m with renderers := p.2 })

/-- Model of `Mixer::render_stereo`. -/
def Mixer.render_stereo (m : Mixer) (data : List ℚ) : List ℚ × Mixer :=
  let m := m.consume_commands
  let p := retainRenderStereo m.sample_rate m.renderers (List.replicate data.length 0)
  (p.1, { m with renderers := p.2 })

/-- The post-callback state of a single source rendered alone into a
silent mono buffer of length `len`. -/
def Source.stepMono (sample_rate len : ℕ) (s : Source) : Source :=
  (s.render_mono sample_rate (List.replicate len 0)).2

/-- The contribution a single source adds during one mono callback: what it
renders alone into a silent buffer of length `len`. -/
def Source.contribMono (sample_rate len : ℕ) (s : Source) : List ℚ :=
  (s.render_mono sample_rate (List.replicate len 0)).1

/-- Stereo version of `Source.stepMono`. -/
def Source.stepStereo (sample_rate len : ℕ) (s : Source) : Source :=
  (s.render_stereo sample_rate (List.replicate len 0)).2

/-- Stereo version of `Source.contribMono`. -/
def Source.contribStereo (sample_rate len : ℕ) (s : Source) : List ℚ :=
  (s.render_stereo sample_rate (List.replicate len 0)).1

/-- Pointwise sum of a list of equal-length buffers over a silent buffer of
length `len`. -/
def sumBuffers (len : ℕ) (l : List (List ℚ)) : List ℚ :=
  l.foldr (List.zipWith (· + ·)) (List.replicate len 0)

/-! ## Stretcher (`renderer/stretcher.rs`)

The transcendental and random ingredients are abstracted: `c i m` stands
for `f32::cos(i * TWO_PI / m)`, `sqrtSqrtHalf` for `f32::sqrt(0.5).sqrt()`,
and the `resynth` field for `ReFFT::resynth` (windowed forward FFT, random
phase rotation by `thread_rng`, inverse FFT, rescale) — floating-point
cosines, FFTs over irrational twiddle factors, and a non-seedable RNG have
no exact executable model, and the claims under verification depend only
on the arithmetic of the remaining fields and on buffer lengths. -/

/-- Model of `hanning`: `0.5 - cos(i * TWO_PI / (len-1)) * 0.5`. -/
def hanning (c : ℕ → ℕ → ℚ) (len : ℕ) : List ℚ :=
  (List.range len).map fun i => 1/2 - c i (len - 1) * (1/2)

/-- Model of `hanning_crossfade_compensation`. -/
def hanning_crossfade_compensation (c : ℕ → ℕ → ℚ) (sqrtSqrtHalf : ℚ)
    (len : ℕ) : List ℚ :=
  let hinv_sqrt2 := (1 + sqrtSqrtHalf) * (1/2)
  (List.range len).map fun i => 1/2 - (1 - hinv_sqrt2) * c i (len - 1)

/-- Model of `ReFFT`: the window and the (abstracted) resynthesis
function. -/
structure ReFFT where
  window_len : ℕ
  window : List ℚ
  resynth : List ℚ → List ℚ

/-- Model of `Stretcher`. -/
structure Stretcher where
  sample_rate : ℕ
  input_buf : List ℚ
  output_buf : List ℚ
  corrected_amp_factor : ℚ
  amp_correction_envelope : List ℚ
  re_fft : ReFFT
  window_len : ℕ
  half_window_len : ℕ
  samples_needed_per_window : ℕ
  sample_step_len : ℕ
  done : Bool

/-- Model of `Stretcher::new` (window length `W = 8192`). -/
def Stretcher.new (c : ℕ → ℕ → ℚ) (sqrtSqrtHalf : ℚ)
    (resynth : List ℚ → List ℚ) (sample_rate : ℕ) (input : List ℚ)
    (factor : ℚ) : Stretcher :=
  let window := hanning c 8192
  let window_len := window.length
  let half_window_len := window_len / 2
  { sample_rate := sample_rate,
    corrected_amp_factor := max 4 (factor / 4),
    amp_correction_envelope :=
      hanning_crossfade_compensation c sqrtSqrtHalf (window.length / 2),
    re_fft := { window_len := window_len, window := window, resynth := resynth },
    window_len := window_len,
    half_window_len := half_window_len,
    samples_needed_per_window := window_len,
    sample_step_len := f32toUsize ((window_len : ℚ) / (factor * 2)),
    output_buf := List.replicate half_window_len 0,
    input_buf := input,
    done := false }

/-- Model of `Stretcher::ensure_input_samples_available`
(`SliceDeque::resize(n, 0.0)` pads to length `n`). -/
def Stretcher.ensure_input_samples_available (st : Stretcher) (n : ℕ) : Stretcher :=
  if st.input_buf.length < n then
    { st with input_buf := st.input_buf ++ List.replicate (n - st.input_buf.length) 0,
              done := true }
  else st

/-- The in-place merge of the first half window inside `next_window`:
`output_buf[pos+i] = (fft[i] + output_buf[pos+i]) * env[i] * amp` for
`i < half`. -/
def mergeAt (out fft env : List ℚ) (amp : ℚ) (pos half : ℕ) : List ℚ :=
  (List.range half).foldl
    (fun acc i =>
      acc.set (pos + i) ((fft.getD i 0 + acc.getD (pos + i) 0) * env.getD i 0 * amp))
    out

/-- One iteration of the while loop in `Stretcher::next_window`
(`SliceDeque::truncate_front(k)` keeps the last `k` elements). -/
def Stretcher.stepOnce (st : Stretcher) (pos : ℕ) : Stretcher :=
  let st := st.ensure_input_samples_available st.window_len
  let fft_result := st.re_fft.resynth (st.input_buf.take st.window_len)
  let merged := mergeAt st.output_buf fft_result st.amp_correction_envelope
      st.corrected_amp_factor pos st.half_window_len
  { st with output_buf := merged ++ fft_result.drop st.half_window_len,
            input_buf := lastN (st.input_buf.length - st.sample_step_len) st.input_buf }

/-- The while loop of `Stretcher::next_window`, run with explicit fuel
(each iteration grows `output_buf`, so enough fuel reaches the loop's exit
condition; see `loopWindows_length`). -/
def Stretcher.loopWindows : ℕ → Stretcher → ℕ → Stretcher
  | 0, st, _ => st
  | fuel + 1, st, pos =>
      if st.output_buf.length < st.samples_needed_per_window + st.half_window_len then
        Stretcher.loopWindows fuel (st.stepOnce pos) (pos + st.half_window_len)
      else st

/-- Model of `Stretcher::next_window`. -/
def Stretcher.next_window (st : Stretcher) : List ℚ × Stretcher :=
  let st := Stretcher.loopWindows (st.samples_needed_per_window + st.half_window_len) st 0
  (st.output_buf.take st.samples_needed_per_window,
   { st with output_buf := lastN st.half_window_len st.output_buf })

/-- The example clip of spec scenario S1: rate 2,
frames `[(1,0),(0,1),(-1,0),(0,-1)]`. -/
def clipS1 : AudioClip := ⟨[⟨1, 0⟩, ⟨0, 1⟩, ⟨-1, 0⟩, ⟨0, -1⟩], 2⟩

/-- A one-frame clip at rate 1. -/
def clip1 : AudioClip := ⟨[⟨1, 1⟩], 1⟩

/-- A non-looping music renderer whose position is already past the end of
its one-frame clip, resumed, with the shared paused atomic reading false. -/
def musicC3 : MusicRenderer :=
  { clip := clip1, settings := ⟨-1, 1, 1, 16⟩,
    state := some ⟨0, false⟩, cons := [], paused := false, index := 1,
    last_sample_rate := 1, low_pass := 0, last_output := ⟨0, 0⟩,
    fade_time := 0, fade_current := 0 }

/-- A looping music renderer (`loop_mix_time = 0`) past the end of its
one-frame clip, with a non-trivial low-pass coefficient. -/
def musicC4 : MusicRenderer :=
  { clip := clip1, settings := ⟨0, 1, 1, 16⟩,
    state := some ⟨0, false⟩, cons := [], paused := false, index := 1,
    last_sample_rate := 1, low_pass := 1/2, last_output := ⟨0, 0⟩,
    fade_time := 0, fade_current := 0 }

/-- An eight-frame all-ones clip at rate 4. -/
def clipC7 : AudioClip := ⟨List.replicate 8 ⟨1, 1⟩, 4⟩

/-- A freshly created paused music renderer with one pending
`FadeIn(1.0)` command, about to render at sample rate 4. -/
def musicC7 : MusicRenderer :=
  { clip := clipC7, settings := ⟨-1, 1, 1, 16⟩,
    state := some ⟨0, true⟩, cons := [.fadeIn 1], paused := true, index := 0,
    last_sample_rate := 4, low_pass := 0, last_output := ⟨0, 0⟩,
    fade_time := 0, fade_current := 0 }

/-- An sfx renderer with a live handle and one queued trigger. -/
def sfxC6 : SfxRenderer := { clip := clip1, arc_alive := true, cons := [(0, ⟨1⟩)] }

/-- Characterisation of the `LatencyRecorder` state reached by pushing the
samples `xs` into a fresh recorder. -/
def LatencyInv (xs : List ℚ) (s : LatencyRecorder) : Prop :=
  s.head = xs.length % LATENCY_RECORD_NUM ∧
  s.full = decide (LATENCY_RECORD_NUM ≤ xs.length) ∧
  s.sum = (lastN LATENCY_RECORD_NUM xs).sum ∧
  s.records.length = LATENCY_RECORD_NUM ∧
  s.records.sum = s.sum ∧
  ∀ j < LATENCY_RECORD_NUM, s.records.getD j 0 = ringCell xs j

/-! ## Basic lemmas -/

theorem f32toUsize_of_neg {x : ℚ} (h : x < 0) : f32toUsize x = 0 := by
  have : ⌊x⌋ < 0 := by
    have := Int.floor_le x
    by_contra hc
    push_neg at hc
    have : (0 : ℚ) ≤ ⌊x⌋ := by exact_mod_cast hc
    linarith [Int.floor_le x]
  simp [f32toUsize, Int.toNat_of_nonpos this.le]

theorem f32toUsize_natCast (n : ℕ) : f32toUsize (n : ℚ) = n := by
  simp [f32toUsize]

theorem f32toUsize_cast_of_nonneg {x : ℚ} (h : 0 ≤ x) : (f32toUsize x : ℤ) = ⌊x⌋ := by
  simp [f32toUsize, Int.toNat_of_nonneg (Int.floor_nonneg.mpr h)]

theorem Frame.interpolate_zero (f g : Frame) : f.interpolate g 0 = f := by
  simp [Frame.interpolate]

theorem Frame.interpolate_half (f g : Frame) :
    f.interpolate g (1/2) = ⟨(f.l + g.l) / 2, (f.r + g.r) / 2⟩ := by
  simp only [Frame.interpolate, Frame.mk.injEq]
  constructor <;> ring

theorem AudioClip.sample_unfold (c : AudioClip) (t : ℚ) :
    c.sample t =
      match c.frames[f32toUsize (t * (c.sample_rate : ℚ))]? with
      | some frame =>
          some (frame.interpolate
            ((c.frames[f32toUsize (t * (c.sample_rate : ℚ)) + 1]?).getD frame)
            (t * (c.sample_rate : ℚ) - (f32toUsize (t * (c.sample_rate : ℚ)) : ℚ)))
      | none => none := rfl

theorem AudioClip.sample_of_index_lt (c : AudioClip) (t : ℚ)
    (h : f32toUsize (t * (c.sample_rate : ℚ)) < c.frames.length) :
    c.sample t = some
      ((c.frames.getD (f32toUsize (t * (c.sample_rate : ℚ))) ⟨0, 0⟩).interpolate
        (c.frames.getD
          (min (f32toUsize (t * (c.sample_rate : ℚ)) + 1) (c.frames.length - 1)) ⟨0, 0⟩)
        (t * (c.sample_rate : ℚ) - (f32toUsize (t * (c.sample_rate : ℚ)) : ℚ))) := by
  rw [AudioClip.sample_unfold]
  rcases Nat.lt_or_ge (f32toUsize (t * (c.sample_rate : ℚ)) + 1) c.frames.length with h2 | h2
  · rw [List.getElem?_eq_getElem h, List.getElem?_eq_getElem h2]
    have hmin : min (f32toUsize (t * (c.sample_rate : ℚ)) + 1) (c.frames.length - 1) =
        f32toUsize (t * (c.sample_rate : ℚ)) + 1 := by omega
    simp [hmin, List.getD_eq_getElem?_getD, List.getElem?_eq_getElem, h, h2]
  · have h3 : c.frames.length = f32toUsize (t * (c.sample_rate : ℚ)) + 1 := by omega
    rw [List.getElem?_eq_getElem h, List.getElem?_eq_none (by omega)]
    have hmin : min (f32toUsize (t * (c.sample_rate : ℚ)) + 1) (c.frames.length - 1) =
        f32toUsize (t * (c.sample_rate : ℚ)) := by omega
    simp [hmin, List.getD_eq_getElem?_getD, List.getElem?_eq_getElem, h]

theorem AudioClip.sample_of_index_ge (c : AudioClip) (t : ℚ)
    (h : c.frames.length ≤ f32toUsize (t * (c.sample_rate : ℚ))) :
    c.sample t = none := by
  rw [AudioClip.sample_unfold, List.getElem?_eq_none h]

/-! ## Claim theorems: clip sampler -/

/-- C1: `AudioClip::sample` computes `x = t * rate` and `i = floor x`
(as the saturating usize cast, which agrees with `floor` for `t ≥ 0`);
it returns none when `i` is past the last frame and otherwise the
per-channel linear interpolation of `frames[i]` toward
`frames[min (i+1) (n-1)]` with fraction `x - i`; in particular
`sample (i/rate) = frames[i]`, `sample ((i+1/2)/rate)` is the per-channel
midpoint of `frames[i]` and `frames[i+1]`, and `sample length = none`. -/
theorem clip_sample_correct (c : AudioClip) (hn : 1 ≤ c.frames.length)
    (hr : 0 < c.sample_rate) :
    (∀ t : ℚ, 0 ≤ t →
      ((f32toUsize (t * (c.sample_rate : ℚ)) : ℤ) = ⌊t * (c.sample_rate : ℚ)⌋) ∧
      (c.frames.length ≤ f32toUsize (t * (c.sample_rate : ℚ)) → c.sample t = none) ∧
      (f32toUsize (t * (c.sample_rate : ℚ)) < c.frames.length →
        c.sample t = some
          ((c.frames.getD (f32toUsize (t * (c.sample_rate : ℚ))) ⟨0, 0⟩).interpolate
            (c.frames.getD
              (min (f32toUsize (t * (c.sample_rate : ℚ)) + 1) (c.frames.length - 1))
              ⟨0, 0⟩)
            (t * (c.sample_rate : ℚ) - (f32toUsize (t * (c.sample_rate : ℚ)) : ℚ))))) ∧
    (∀ i : ℕ, i < c.frames.length →
      c.sample ((i : ℚ) / (c.sample_rate : ℚ)) = some (c.frames.getD i ⟨0, 0⟩)) ∧
    (∀ i : ℕ, i + 1 < c.frames.length →
      c.sample (((i : ℚ) + 1/2) / (c.sample_rate : ℚ)) =
        some ⟨((c.frames.getD i ⟨0, 0⟩).l + (c.frames.getD (i + 1) ⟨0, 0⟩).l) / 2,
              ((c.frames.getD i ⟨0, 0⟩).r + (c.frames.getD (i + 1) ⟨0, 0⟩).r) / 2⟩) ∧
    c.sample c.length = none := by
  have hrq : (c.sample_rate : ℚ) ≠ 0 := by positivity
  refine ⟨fun t ht => ⟨?_, fun h => c.sample_of_index_ge t h,
      fun h => c.sample_of_index_lt t h⟩, fun i hi => ?_, fun i hi => ?_, ?_⟩
  · exact f32toUsize_cast_of_nonneg (by positivity)
  · have hx : (i : ℚ) / (c.sample_rate : ℚ) * (c.sample_rate : ℚ) = (i : ℚ) :=
      div_mul_cancel₀ _ hrq
    have hidx : f32toUsize ((i : ℚ) / (c.sample_rate : ℚ) * (c.sample_rate : ℚ)) = i := by
      rw [hx, f32toUsize_natCast]
    rw [c.sample_of_index_lt _ (by rw [hidx]; exact hi)]
    rw [hidx, hx]
    simp [Frame.interpolate_zero]
  · have hx : ((i : ℚ) + 1/2) / (c.sample_rate : ℚ) * (c.sample_rate : ℚ) =
        (i : ℚ) + 1/2 := div_mul_cancel₀ _ hrq
    have hfl : ⌊(i : ℚ) + 1/2⌋ = (i : ℤ) := by
      rw [Int.floor_eq_iff]
      constructor
      · push_cast; linarith
      · push_cast; linarith
    have hidx : f32toUsize (((i : ℚ) + 1/2) / (c.sample_rate : ℚ) * (c.sample_rate : ℚ)) = i := by
      rw [hx]
      unfold f32toUsize
      rw [hfl]
      simp
    rw [c.sample_of_index_lt _ (by rw [hidx]; omega)]
    rw [hidx, hx]
    have hmin : min (i + 1) (c.frames.length - 1) = i + 1 := by omega
    rw [hmin]
    have hfrac : (i : ℚ) + 1/2 - (i : ℚ) = 1/2 := by ring
    rw [hfrac, Frame.interpolate_half]
  · have hx : c.length * (c.sample_rate : ℚ) = (c.frames.length : ℚ) := by
      rw [AudioClip.length, AudioClip.frame_count, div_mul_cancel₀ _ hrq]
    apply c.sample_of_index_ge
    rw [hx, f32toUsize_natCast]

/-- Witness for `clip_sample_correct` at the spec's scenario-S1 clip. -/
theorem clip_sample_correct_witness :
    1 ≤ clipS1.frames.length ∧ 0 < clipS1.sample_rate ∧ clipS1.sample clipS1.length = none :=
  ⟨by decide, by decide,
   (clip_sample_correct clipS1 (by decide) (by decide)).2.2.2⟩

/-- C9: for a clip with at least one frame and any time `t` whose scaled
position `t * rate` is negative, the float-to-usize cast saturates to
index 0 and `sample` returns `some`: `frames[0]` extrapolated toward
`frames[min 1 (n-1)]` with the negative fraction `t * rate`. -/
theorem clip_sample_neg_saturates (c : AudioClip) (hn : 1 ≤ c.frames.length)
    (t : ℚ) (ht : t * (c.sample_rate : ℚ) < 0) :
    f32toUsize (t * (c.sample_rate : ℚ)) = 0 ∧
    c.sample t = some
      ((c.frames.getD 0 ⟨0, 0⟩).interpolate
        (c.frames.getD (min 1 (c.frames.length - 1)) ⟨0, 0⟩)
        (t * (c.sample_rate : ℚ))) ∧
    (c.sample t).isSome = true := by
  have h0 : f32toUsize (t * (c.sample_rate : ℚ)) = 0 := f32toUsize_of_neg ht
  have hs := c.sample_of_index_lt t (by omega)
  rw [h0] at hs
  refine ⟨h0, ?_, ?_⟩
  · rw [hs]
    norm_num
  · rw [hs]
    rfl

/-- Witness for `clip_sample_neg_saturates` at `t = -1` on the S1 clip. -/
theorem clip_sample_neg_saturates_witness :
    1 ≤ clipS1.frames.length ∧ (-1 : ℚ) * (clipS1.sample_rate : ℚ) < 0 ∧
      clipS1.sample (-1) = some
        ((clipS1.frames.getD 0 ⟨0, 0⟩).interpolate
          (clipS1.frames.getD (min 1 (clipS1.frames.length - 1)) ⟨0, 0⟩)
          ((-1 : ℚ) * (clipS1.sample_rate : ℚ))) :=
  ⟨by decide, by norm_num [clipS1],
   (clip_sample_neg_saturates clipS1 (by decide) (-1) (by norm_num [clipS1])).2.1⟩

/-! ## LatencyRecorder lemmas -/

theorem getD_append_lt (xs ys : List ℚ) (i : ℕ) (h : i < xs.length) :
    (xs ++ ys).getD i 0 = xs.getD i 0 := by
  rw [List.getD_eq_getElem?_getD, List.getD_eq_getElem?_getD, List.getElem?_append_left h]

theorem getD_append_last (xs : List ℚ) (x : ℚ) :
    (xs ++ [x]).getD xs.length 0 = x := by
  simp [List.getD_eq_getElem?_getD, List.getElem?_append_right (le_refl xs.length)]

theorem getD_append_cast (xs : List ℚ) (x : ℚ) (A B : ℕ) (hAB : A = B)
    (hB : B < xs.length) : (xs ++ [x]).getD A 0 = xs.getD B 0 := by
  subst hAB
  exact getD_append_lt xs [x] A hB

theorem getD_append_last_cast (xs : List ℚ) (x : ℚ) (A : ℕ) (hA : A = xs.length) :
    (xs ++ [x]).getD A 0 = x := by
  subst hA
  exact getD_append_last xs x

theorem getD_set (l : List ℚ) (i j : ℕ) (a : ℚ) (hi : i < l.length) :
    (l.set i a).getD j 0 = if i = j then a else l.getD j 0 := by
  simp only [List.getD_eq_getElem?_getD, List.getElem?_set, hi]
  by_cases h : i = j <;> simp [h, hi]

theorem sum_set (l : List ℚ) (i : ℕ) (a : ℚ) (hi : i < l.length) :
    (l.set i a).sum = l.sum - l.getD i 0 + a := by
  induction l generalizing i with
  | nil => simp at hi
  | cons y ys ih =>
      cases i with
      | zero => simp [List.getD_cons_zero]; ring
      | succ n =>
          simp only [List.set_cons_succ, List.sum_cons, List.getD_cons_succ]
          rw [ih n (by simpa using hi)]
          ring

theorem sum_drop_getD (l : List ℚ) (n : ℕ) (h : n < l.length) :
    (l.drop n).sum = l.getD n 0 + (l.drop (n + 1)).sum := by
  rw [List.drop_eq_getElem_cons h, List.sum_cons, List.getD_eq_getElem?_getD,
      List.getElem?_eq_getElem h]
  rfl

theorem ringCell_append (xs : List ℚ) (x : ℚ) (j : ℕ) (hj : j < LATENCY_RECORD_NUM) :
    ringCell (xs ++ [x]) j =
      if j = xs.length % LATENCY_RECORD_NUM then x else ringCell xs j := by
  simp only [LATENCY_RECORD_NUM] at hj
  unfold ringCell
  simp only [LATENCY_RECORD_NUM, List.length_append, List.length_singleton]
  split_ifs <;>
    first
      | rfl
      | exact getD_append_last_cast _ _ _ (by omega)
      | exact getD_append_cast _ _ _ _ (by omega) (by omega)
      | (exfalso; omega)

theorem latencyInv_nil : LatencyInv [] LatencyRecorder.new := by
  refine ⟨rfl, rfl, rfl, rfl, ?_, ?_⟩
  · show (List.replicate 64 (0 : ℚ)).sum = LatencyRecorder.new.sum
    simp [List.sum_replicate, LatencyRecorder.new]
  · intro j hj
    show (List.replicate 64 (0 : ℚ)).getD j 0 = ringCell [] j
    unfold ringCell
    simp only [LATENCY_RECORD_NUM, List.length_nil] at hj ⊢
    rw [if_neg (by omega), if_neg (by omega), List.getD_eq_getElem?_getD,
      List.getElem?_replicate, if_pos hj]
    rfl

theorem latencyInv_push {xs : List ℚ} {s : LatencyRecorder}
    (h : LatencyInv xs s) (x : ℚ) : LatencyInv (xs ++ [x]) (s.push x) := by
  obtain ⟨hh, hf, hs, hl, hrs, hcell⟩ := h
  simp only [LATENCY_RECORD_NUM] at hh hf hl hcell
  have hk64 : xs.length % 64 < 64 := Nat.mod_lt _ (by omega)
  have hheadlt : s.head < s.records.length := by omega
  have hplace : s.records.getD s.head 0 = ringCell xs (xs.length % 64) := by
    rw [hh]
    exact hcell _ hk64
  have hplace0 : ¬ 64 ≤ xs.length → s.records.getD s.head 0 = 0 := by
    intro h64
    rw [hplace]
    unfold ringCell
    simp only [LATENCY_RECORD_NUM]
    rw [if_neg (by omega), if_neg (by omega)]
  have hplaceD : 64 ≤ xs.length →
      s.records.getD s.head 0 = xs.getD (xs.length - 64) 0 := by
    intro h64
    rw [hplace]
    unfold ringCell
    simp only [LATENCY_RECORD_NUM]
    rw [if_neg (by omega), if_pos (by omega)]
    congr 1
    omega
  refine ⟨?_, ?_, ?_, ?_, ?_, ?_⟩
  · -- head index
    simp only [LatencyRecorder.push, LATENCY_RECORD_NUM, List.length_append,
      List.length_singleton]
    by_cases hlast : s.head + 1 = 64
    · rw [if_pos hlast]
      omega
    · rw [if_neg hlast]
      omega
  · -- full flag
    simp only [LatencyRecorder.push, LATENCY_RECORD_NUM, List.length_append,
      List.length_singleton]
    by_cases hlast : s.head + 1 = 64
    · rw [if_pos hlast]
      have h1 : (64 : ℕ) ≤ xs.length + 1 := by omega
      simp [h1]
    · rw [if_neg hlast]
      rw [hf]
      exact decide_eq_decide.mpr (by omega)
  · -- running sum
    simp only [LatencyRecorder.push]
    by_cases h64 : 64 ≤ xs.length
    · rw [hs, hplaceD h64]
      have hdrop : lastN LATENCY_RECORD_NUM (xs ++ [x]) =
          xs.drop (xs.length - 63) ++ [x] := by
        unfold lastN
        simp only [LATENCY_RECORD_NUM, List.length_append, List.length_singleton]
        rw [show xs.length + 1 - 64 = xs.length - 63 from by omega,
          List.drop_append_of_le_length (by omega)]
      rw [hdrop, List.sum_append, List.sum_singleton]
      have hlast : lastN LATENCY_RECORD_NUM xs = xs.drop (xs.length - 64) := by
        unfold lastN
        simp only [LATENCY_RECORD_NUM]
      rw [hlast, sum_drop_getD xs (xs.length - 64) (by omega),
        show xs.length - 64 + 1 = xs.length - 63 from by omega]
      ring
    · rw [hs, hplace0 h64]
      have hdrop : lastN LATENCY_RECORD_NUM (xs ++ [x]) = xs ++ [x] := by
        unfold lastN
        simp only [LATENCY_RECORD_NUM, List.length_append, List.length_singleton]
        rw [show xs.length + 1 - 64 = 0 from by omega, List.drop_zero]
      have hlast : lastN LATENCY_RECORD_NUM xs = xs := by
        unfold lastN
        simp only [LATENCY_RECORD_NUM]
        rw [show xs.length - 64 = 0 from by omega, List.drop_zero]
      rw [hdrop, hlast, List.sum_append, List.sum_singleton]
      ring
  · -- ring length
    simp only [LatencyRecorder.push, List.length_set, List.length_append,
      List.length_singleton]
    simpa using hl
  · -- ring sum = running sum
    simp only [LatencyRecorder.push]
    rw [sum_set _ _ _ hheadlt, hrs]
    ring
  · -- ring contents
    intro j hj
    simp only [LatencyRecorder.push]
    rw [ringCell_append xs x j hj, getD_set _ _ _ _ hheadlt]
    simp only [LATENCY_RECORD_NUM] at hj ⊢
    by_cases hjr : j = xs.length % 64
    · rw [if_pos (by omega), if_pos hjr]
    · rw [if_neg (by omega), if_neg hjr]
      exact hcell j hj

theorem latencyInv_pushAll (xs : List ℚ) :
    LatencyInv xs (LatencyRecorder.new.pushAll xs) := by
  induction xs using List.reverseRecOn with
  | nil => exact latencyInv_nil
  | append_singleton ys x ih =>
      have hstep : LatencyRecorder.new.pushAll (ys ++ [x]) =
          (LatencyRecorder.new.pushAll ys).push x := by
        simp [LatencyRecorder.pushAll, List.foldl_append]
      rw [hstep]
      exact latencyInv_push ih x

theorem push_result_formula (s : LatencyRecorder) (x : ℚ) :
    (s.push x).result = (s.push x).sum /
      (if (s.push x).full then (LATENCY_RECORD_NUM : ℚ)
       else ((max (s.push x).head 1 : ℕ) : ℚ)) := by
  simp only [LatencyRecorder.push]

/-! ## Claim theorem: latency moving average -/

/-- C5: after pushing `x₁..xₖ` into a fresh `LatencyRecorder`, the value
published into the shared atomic equals the arithmetic mean of the most
recent `min k 64` samples (so of all of them for `k ≤ 64`, and of the most
recent 64 for `k > 64`); equivalently it is `sum / (full ? 64 : max(head,1))`
with `sum` equal to the sum of the ring buffer's contents. -/
theorem latency_moving_average (xs : List ℚ) (h : xs ≠ []) :
    (LatencyRecorder.new.pushAll xs).result =
      (lastN LATENCY_RECORD_NUM xs).sum / ((min xs.length LATENCY_RECORD_NUM : ℕ) : ℚ) ∧
    (LatencyRecorder.new.pushAll xs).result =
      (LatencyRecorder.new.pushAll xs).records.sum /
        (if (LatencyRecorder.new.pushAll xs).full then (LATENCY_RECORD_NUM : ℚ)
         else ((max (LatencyRecorder.new.pushAll xs).head 1 : ℕ) : ℚ)) ∧
    (LatencyRecorder.new.pushAll xs).records.sum = (lastN LATENCY_RECORD_NUM xs).sum := by
  obtain ⟨hh, hf, hs, hl, hrs, hcell⟩ := latencyInv_pushAll xs
  have hres : (LatencyRecorder.new.pushAll xs).result =
      (LatencyRecorder.new.pushAll xs).sum /
        (if (LatencyRecorder.new.pushAll xs).full then (LATENCY_RECORD_NUM : ℚ)
         else ((max (LatencyRecorder.new.pushAll xs).head 1 : ℕ) : ℚ)) := by
    obtain hnil | ⟨ys, y, hcat⟩ := List.eq_nil_or_concat xs
    · exact absurd hnil h
    · rw [hcat, List.concat_eq_append]
      have hstep : LatencyRecorder.new.pushAll (ys ++ [y]) =
          (LatencyRecorder.new.pushAll ys).push y := by
        simp [LatencyRecorder.pushAll, List.foldl_append]
      rw [hstep]
      exact push_result_formula _ y
  have hlen1 : 1 ≤ xs.length := List.length_pos.mpr h
  have hdiv : (if (LatencyRecorder.new.pushAll xs).full then (LATENCY_RECORD_NUM : ℚ)
      else ((max (LatencyRecorder.new.pushAll xs).head 1 : ℕ) : ℚ)) =
      ((min xs.length LATENCY_RECORD_NUM : ℕ) : ℚ) := by
    rw [hf, hh]
    simp only [LATENCY_RECORD_NUM, decide_eq_true_eq]
    by_cases h64 : 64 ≤ xs.length
    · rw [if_pos (by simpa using h64), show min xs.length 64 = 64 from by omega]
    · rw [if_neg (by simpa using h64)]
      congr 1
      omega
  refine ⟨?_, ?_, ?_⟩
  · rw [hres, hdiv, hs]
  · rw [hres, hrs]
  · rw [hrs, hs]

/-- Witness for `latency_moving_average` at the two-sample push `[1, 2]`. -/
theorem latency_moving_average_witness :
    ([(1 : ℚ), 2] ≠ []) ∧
      (LatencyRecorder.new.pushAll [(1 : ℚ), 2]).result =
        (lastN LATENCY_RECORD_NUM [(1 : ℚ), 2]).sum /
          ((min ([(1 : ℚ), 2].length) LATENCY_RECORD_NUM : ℕ) : ℚ) :=
  ⟨by simp, (latency_moving_average [(1 : ℚ), 2] (by simp)).1⟩

/-! ## Claim theorems: music renderer frame behaviour -/

/-- C3 (amended): when a non-looping music renderer fails to sample the
clip, it sets its local paused flag, stops rendering the rest of the
buffer, but does NOT publish to the shared paused atomic, so the value
`Music::paused` observes is unchanged. -/
theorem music_exhaustion_pauses_locally (r : MusicRenderer) (position delta : ℚ)
    (hloop : r.settings.loop_mix_time < 0)
    (hs : r.clip.sample position = none) :
    r.frame position delta = (none, { r with paused := true }) ∧
    (∀ data : List ℚ, (r.renderLoopMono position delta data).1 = data) ∧
    (∀ data : List ℚ, (r.renderLoopStereo position delta data).1 = data) ∧
    (∀ data : List ℚ,
      musicHandlePaused (r.renderLoopMono position delta data).2 = musicHandlePaused r) := by
  have hfr : r.frame position delta = (none, { r with paused := true }) := by
    simp only [MusicRenderer.frame, hs]
    rw [if_neg (not_le.mpr hloop)]
  refine ⟨hfr, ?_, ?_, ?_⟩
  · intro data
    cases data with
    | nil => rfl
    | cons x rest => simp only [MusicRenderer.renderLoopMono, hfr]
  · intro data
    match data with
    | [] => rfl
    | [x] => rfl
    | a :: b :: rest => simp only [MusicRenderer.renderLoopStereo, hfr]
  · intro data
    cases data with
    | nil => rfl
    | cons x rest =>
        simp only [MusicRenderer.renderLoopMono, hfr]
        rfl

/-- Witness for `music_exhaustion_pauses_locally` on a concrete exhausted
non-looping renderer. -/
theorem music_exhaustion_pauses_locally_witness :
    musicC3.settings.loop_mix_time < 0 ∧
      musicC3.clip.sample 1 = none ∧
      musicC3.frame 1 1 = (none, { musicC3 with paused := true }) :=
  ⟨by with_unfolding_all decide, by with_unfolding_all decide,
   (music_exhaustion_pauses_locally musicC3 1 1 (by with_unfolding_all decide)
     (by with_unfolding_all decide)).1⟩

/-- C3 counterexample: after the callback in which the non-looping
renderer exhausts its clip, the local paused flag is true but the shared
paused atomic (what `Music::paused` returns) still reads false — the
claimed publication does not happen. -/
theorem music_exhaustion_publish_counterexample :
    ((musicC3.render_mono 1 [0]).2).paused = true ∧
      musicHandlePaused ((musicC3.render_mono 1 [0]).2) = some false := by
  with_unfolding_all decide

/-- C4 (amended): when the primary sample fails and `loop_mix_time ≥ 0`,
the renderer wraps to `position' = position - length + loop_mix_time`,
resets `index = round(position'/delta)`, and emits
`clip.sample(position')` scaled by the amplifier only, with the fade
envelope bypassed (fade counters untouched) — but the one-pole low-pass is
still applied to the emitted frame by the render loop before it is added
to the output buffer. -/
theorem music_loop_wrap (r : MusicRenderer) (position delta : ℚ)
    (hloop : 0 ≤ r.settings.loop_mix_time)
    (hs : r.clip.sample position = none) :
    r.frame position delta =
      (some (match r.clip.sample (position - r.clip.length + r.settings.loop_mix_time) with
             | some f => f * r.settings.amplifier
             | none => (⟨0, 0⟩ : Frame)),
       { r with index :=
           rustRoundUsize ((position - r.clip.length + r.settings.loop_mix_time) / delta) }) ∧
    (∀ x : ℚ, ∀ f : Frame,
      r.clip.sample (position - r.clip.length + r.settings.loop_mix_time) = some f →
      (r.renderLoopMono position delta [x]).1 =
        [x + (r.last_output * r.low_pass + (f * r.settings.amplifier) * (1 - r.low_pass)).avg]) := by
  have hfr : r.frame position delta =
      (some (match r.clip.sample (position - r.clip.length + r.settings.loop_mix_time) with
             | some f => f * r.settings.amplifier
             | none => (⟨0, 0⟩ : Frame)),
       { r with index :=
           rustRoundUsize ((position - r.clip.length + r.settings.loop_mix_time) / delta) }) := by
    simp only [MusicRenderer.frame, hs]
    rw [if_pos hloop]
  refine ⟨hfr, ?_⟩
  intro x f hwrap
  simp only [MusicRenderer.renderLoopMono, hfr, hwrap, MusicRenderer.update_and_get,
    MusicRenderer.renderLoopMono]

/-- Witness for `music_loop_wrap` on the concrete looping renderer. -/
theorem music_loop_wrap_witness :
    (0 : ℚ) ≤ musicC4.settings.loop_mix_time ∧
      musicC4.clip.sample 1 = none ∧
      (musicC4.renderLoopMono 1 1 [0]).1 =
        [0 + (musicC4.last_output * musicC4.low_pass +
          ((⟨1, 1⟩ : Frame) * musicC4.settings.amplifier) * (1 - musicC4.low_pass)).avg] :=
  ⟨by with_unfolding_all decide, by with_unfolding_all decide,
   (music_loop_wrap musicC4 1 1 (by with_unfolding_all decide)
     (by with_unfolding_all decide)).2 0 ⟨1, 1⟩ (by with_unfolding_all decide)⟩

/-- C4 counterexample: in a wrap step with `low_pass = 1/2`, the
contribution actually added to the buffer is `1/2`, not the avg `1` of the
amplifier-scaled wrap sample — the one-pole low-pass is NOT bypassed. -/
theorem music_loop_wrap_counterexample :
    (musicC4.render_mono 1 [0]).1 = [1/2] ∧
      musicC4.clip.sample (1 - musicC4.clip.length + musicC4.settings.loop_mix_time) =
        some ⟨1, 1⟩ ∧
      ((⟨1, 1⟩ : Frame) * musicC4.settings.amplifier).avg = 1 ∧
      ((1 : ℚ)/2) ≠ 1 := by
  with_unfolding_all decide

/-- C7: `FadeIn(time)` unpauses the renderer and sets
`fade_time = round(time * sr)`, `fade_current = 0`; while `fade_time > 0`
each rendered frame increments `fade_current` and scales the amplitude by
`fade_current / fade_time`, and the frame on which `fade_current` reaches
`fade_time` resets `fade_time` to 0 and gets full gain; concretely,
`FadeIn(1.0)` at sample rate 4 produces envelope multipliers
`0.25, 0.5, 0.75, 1.0` over the first four output frames. -/
theorem music_fade_in (r : MusicRenderer) (sample_rate : ℕ) (time : ℚ) :
    ((r.applyCommand sample_rate (.fadeIn time)).paused = false ∧
     (r.applyCommand sample_rate (.fadeIn time)).fade_time =
        rustRound (time * (sample_rate : ℚ)) ∧
     (r.applyCommand sample_rate (.fadeIn time)).fade_current = 0) ∧
    (∀ (q : MusicRenderer) (position delta : ℚ) (f : Frame),
      q.clip.sample position = some f → 0 < q.fade_time →
      (q.fade_current + 1 < q.fade_time →
        q.frame position delta =
          (some (q.crossMixed position f *
             (q.settings.amplifier * (((q.fade_current + 1 : ℤ) : ℚ) / ((q.fade_time : ℤ) : ℚ)))),
           { q with index := q.index + 1, fade_current := q.fade_current + 1 })) ∧
      (q.fade_time ≤ q.fade_current + 1 →
        q.frame position delta =
          (some (q.crossMixed position f * q.settings.amplifier),
           { q with index := q.index + 1, fade_current := q.fade_current + 1,
                    fade_time := 0 }))) ∧
    (musicC7.render_mono 4 [0, 0, 0, 0]).1 = [1/4, 1/2, 3/4, 1] := by
  refine ⟨?_, ?_, ?_⟩
  · by_cases hp : r.paused <;>
      simp [MusicRenderer.applyCommand, hp]
  · intro q position delta f hf hft
    constructor
    · intro hlt
      simp only [MusicRenderer.frame, hf]
      rw [if_pos (by simpa using hft.ne.symm), if_pos (by simpa using hft),
        if_neg (by omega)]
    · intro hge
      simp only [MusicRenderer.frame, hf]
      rw [if_pos (by simpa using hft.ne.symm), if_pos (by simpa using hft),
        if_pos (by omega)]
  · with_unfolding_all decide

/-- Witness for `music_fade_in` (the theorem's binders are all
universally quantified data; this instantiates its concrete conjunct). -/
theorem music_fade_in_witness :
    (musicC7.render_mono 4 [0, 0, 0, 0]).1 = [1/4, 1/2, 3/4, 1] :=
  (music_fade_in musicC7 4 1).2.2

/-! ## SfxRenderer lemmas -/

theorem sample_eq_none_iff (c : AudioClip) (p : ℚ) :
    c.sample p = none ↔ c.frames.length ≤ f32toUsize (p * (c.sample_rate : ℚ)) := by
  constructor
  · intro h
    by_contra hlt
    push_neg at hlt
    rw [c.sample_of_index_lt p hlt] at h
    exact Option.noConfusion h
  · exact c.sample_of_index_ge p

theorem sample_none_mono (c : AudioClip) {p q : ℚ} (hpq : p ≤ q)
    (h : c.sample p = none) : c.sample q = none := by
  rw [sample_eq_none_iff] at h ⊢
  refine le_trans h ?_
  unfold f32toUsize
  have hmul : p * (c.sample_rate : ℚ) ≤ q * (c.sample_rate : ℚ) :=
    mul_le_mul_of_nonneg_right hpq (by positivity)
  exact Int.toNat_le_toNat (Int.floor_mono hmul)

theorem advancePos_not_finished_pos (clip : AudioClip) (delta : ℚ) (n : ℕ) :
    ∀ p : ℚ, (advancePos clip delta n p).2 = false →
      (advancePos clip delta n p).1 = p + (n : ℚ) * delta := by
  induction n with
  | zero =>
      intro p _
      simp [advancePos]
  | succ m ih =>
      intro p h
      cases hs : clip.sample p with
      | none => simp [advancePos, hs] at h
      | some f =>
          simp only [advancePos, hs] at h ⊢
          rw [ih (p + delta) h]
          push_cast
          ring

theorem advancePos_finished_mono (clip : AudioClip) {delta : ℚ} (n : ℕ) :
    ∀ {p q : ℚ}, p ≤ q → (advancePos clip delta n p).2 = true →
      (advancePos clip delta n q).2 = true := by
  induction n with
  | zero =>
      intro p q _ h
      simp [advancePos] at h
  | succ m ih =>
      intro p q hpq h
      cases hq : clip.sample q with
      | none => simp [advancePos, hq]
      | some fq =>
          cases hp : clip.sample p with
          | none =>
              rw [sample_none_mono clip hpq hp] at hq
              exact Option.noConfusion hq
          | some fp =>
              simp only [advancePos, hp] at h
              simp only [advancePos, hq]
              exact ih (by linarith) h

theorem sfxEntryMono_spec (clip : AudioClip) (delta amp : ℚ) :
    ∀ (data : List ℚ) (pos : ℚ),
      (sfxEntryMono clip delta amp data pos).2 = advancePos clip delta data.length pos ∧
      (sfxEntryMono clip delta amp data pos).1.length = data.length := by
  intro data
  induction data with
  | nil =>
      intro pos
      simp [sfxEntryMono, advancePos]
  | cons x rest ih =>
      intro pos
      cases hs : clip.sample pos with
      | some f =>
          simp only [sfxEntryMono, advancePos, hs, List.length_cons]
          exact ⟨(ih (pos + delta)).1, by simp [(ih (pos + delta)).2]⟩
      | none =>
          simp [sfxEntryMono, advancePos, hs]

theorem sfxEntryStereo_spec (clip : AudioClip) (delta amp : ℚ) :
    ∀ (data : List ℚ) (pos : ℚ),
      (sfxEntryStereo clip delta amp data pos).2 =
        advancePos clip delta (data.length / 2) pos ∧
      (sfxEntryStereo clip delta amp data pos).1.length = data.length
  | [], pos => by simp [sfxEntryStereo, advancePos]
  | [x], pos => by simp [sfxEntryStereo, advancePos]
  | a :: b :: rest, pos => by
      cases hs : clip.sample pos with
      | some f =>
          have ih := sfxEntryStereo_spec clip delta amp rest (pos + delta)
          simp only [sfxEntryStereo, hs, List.length_cons]
          rw [show (rest.length + 1 + 1) / 2 = rest.length / 2 + 1 from by omega]
          simp only [advancePos, hs]
          exact ⟨ih.1, by simp [ih.2]⟩
      | none =>
          simp only [sfxEntryStereo, hs, List.length_cons]
          rw [show (rest.length + 1 + 1) / 2 = rest.length / 2 + 1 from by omega]
          simp [advancePos, hs]

theorem sfxEntriesMono_spec (clip : AudioClip) (delta : ℚ) :
    ∀ (q : List (ℚ × PlaySfxParams)) (data : List ℚ),
      (sfxEntriesMono clip delta q data).2.1 =
        q.map (sfxEntryAfter clip delta data.length) ∧
      (sfxEntriesMono clip delta q data).2.2 =
        q.countP (sfxFinished clip delta data.length) ∧
      (sfxEntriesMono clip delta q data).1.length = data.length := by
  intro q
  induction q with
  | nil =>
      intro data
      simp [sfxEntriesMono]
  | cons e rest ih =>
      intro data
      have he := sfxEntryMono_spec clip delta e.2.amplifier data e.1
      have hr := ih (sfxEntryMono clip delta e.2.amplifier data e.1).1
      rw [he.2] at hr
      have hfst : (sfxEntryMono clip delta e.2.amplifier data e.1).2.1 =
          (advancePos clip delta data.length e.1).1 := by rw [he.1]
      have hsnd : (sfxEntryMono clip delta e.2.amplifier data e.1).2.2 =
          (advancePos clip delta data.length e.1).2 := by rw [he.1]
      refine ⟨?_, ?_, ?_⟩
      · show ((sfxEntryMono clip delta e.2.amplifier data e.1).2.1, e.2) ::
            (sfxEntriesMono clip delta rest
              (sfxEntryMono clip delta e.2.amplifier data e.1).1).2.1 = _
        rw [List.map_cons, hr.1, hfst]
        rfl
      · show (if (sfxEntryMono clip delta e.2.amplifier data e.1).2.2 then 1 else 0) +
            (sfxEntriesMono clip delta rest
              (sfxEntryMono clip delta e.2.amplifier data e.1).1).2.2 = _
        rw [List.countP_cons, hr.2.1, hsnd]
        unfold sfxFinished
        omega
      · show (sfxEntriesMono clip delta rest
            (sfxEntryMono clip delta e.2.amplifier data e.1).1).1.length = _
        rw [hr.2.2]

theorem sfxEntriesStereo_spec (clip : AudioClip) (delta : ℚ) :
    ∀ (q : List (ℚ × PlaySfxParams)) (data : List ℚ),
      (sfxEntriesStereo clip delta q data).2.1 =
        q.map (sfxEntryAfter clip delta (data.length / 2)) ∧
      (sfxEntriesStereo clip delta q data).2.2 =
        q.countP (sfxFinished clip delta (data.length / 2)) ∧
      (sfxEntriesStereo clip delta q data).1.length = data.length := by
  intro q
  induction q with
  | nil =>
      intro data
      simp [sfxEntriesStereo]
  | cons e rest ih =>
      intro data
      have he := sfxEntryStereo_spec clip delta e.2.amplifier data e.1
      have hr := ih (sfxEntryStereo clip delta e.2.amplifier data e.1).1
      rw [he.2] at hr
      have hfst : (sfxEntryStereo clip delta e.2.amplifier data e.1).2.1 =
          (advancePos clip delta (data.length / 2) e.1).1 := by rw [he.1]
      have hsnd : (sfxEntryStereo clip delta e.2.amplifier data e.1).2.2 =
          (advancePos clip delta (data.length / 2) e.1).2 := by rw [he.1]
      refine ⟨?_, ?_, ?_⟩
      · show ((sfxEntryStereo clip delta e.2.amplifier data e.1).2.1, e.2) ::
            (sfxEntriesStereo clip delta rest
              (sfxEntryStereo clip delta e.2.amplifier data e.1).1).2.1 = _
        rw [List.map_cons, hr.1, hfst]
        rfl
      · show (if (sfxEntryStereo clip delta e.2.amplifier data e.1).2.2 then 1 else 0) +
            (sfxEntriesStereo clip delta rest
              (sfxEntryStereo clip delta e.2.amplifier data e.1).1).2.2 = _
        rw [List.countP_cons, hr.2.1, hsnd]
        unfold sfxFinished
        omega
      · show (sfxEntriesStereo clip delta rest
            (sfxEntryStereo clip delta e.2.amplifier data e.1).1).1.length = _
        rw [hr.2.2]

theorem sorted_drop_eq_filter (clip : AudioClip) {delta : ℚ} (n : ℕ) :
    ∀ q : List (ℚ × PlaySfxParams),
      q.Pairwise (fun a b => b.1 ≤ a.1) →
      (q.map (sfxEntryAfter clip delta n)).drop (q.countP (sfxFinished clip delta n)) =
        (q.filter (fun e => !(sfxFinished clip delta n e))).map
          (sfxEntryAfter clip delta n) := by
  intro q
  induction q with
  | nil => intro _; simp
  | cons e rest ih =>
      intro hp
      rw [List.pairwise_cons] at hp
      by_cases hf : sfxFinished clip delta n e = true
      · rw [List.countP_cons, List.map_cons]
        simp only [hf, if_pos]
        rw [show rest.countP (sfxFinished clip delta n) + 1 =
            (rest.countP (sfxFinished clip delta n)).succ from rfl,
          List.drop_succ_cons, ih hp.2, List.filter_cons]
        simp [hf]
      · have hall : ∀ b ∈ rest, ¬ (sfxFinished clip delta n b = true) := by
          intro b hb hfb
          exact hf (advancePos_finished_mono clip n (hp.1 b hb) hfb)
        have hcnt : rest.countP (sfxFinished clip delta n) = 0 :=
          List.countP_eq_zero.mpr hall
        rw [List.countP_cons, hcnt]
        simp only [hf, if_neg]
        rw [List.filter_eq_self.mpr ?_]
        · simp
        · intro a ha
          rcases List.mem_cons.mp ha with h1 | h1
          · subst h1
            simp [hf]
          · simp [hall a h1]

theorem sfx_render_mono_cons (r : SfxRenderer) (sample_rate : ℕ) (data : List ℚ)
    (hsort : r.cons.Pairwise (fun a b => b.1 ≤ a.1)) :
    (r.render_mono sample_rate data).2.cons =
      (r.cons.filter
        (fun e => !(sfxFinished r.clip (1 / (sample_rate : ℚ)) data.length e))).map
        (sfxEntryAfter r.clip (1 / (sample_rate : ℚ)) data.length) := by
  have hs := sfxEntriesMono_spec r.clip (1 / (sample_rate : ℚ)) r.cons data
  show ((sfxEntriesMono r.clip (1 / (sample_rate : ℚ)) r.cons data).2.1).drop
      ((sfxEntriesMono r.clip (1 / (sample_rate : ℚ)) r.cons data).2.2) = _
  rw [hs.1, hs.2.1]
  exact sorted_drop_eq_filter r.clip data.length r.cons hsort

theorem sfx_render_stereo_cons (r : SfxRenderer) (sample_rate : ℕ) (data : List ℚ)
    (hsort : r.cons.Pairwise (fun a b => b.1 ≤ a.1)) :
    (r.render_stereo sample_rate data).2.cons =
      (r.cons.filter
        (fun e => !(sfxFinished r.clip (1 / (sample_rate : ℚ)) (data.length / 2) e))).map
        (sfxEntryAfter r.clip (1 / (sample_rate : ℚ)) (data.length / 2)) := by
  have hs := sfxEntriesStereo_spec r.clip (1 / (sample_rate : ℚ)) r.cons data
  show ((sfxEntriesStereo r.clip (1 / (sample_rate : ℚ)) r.cons data).2.1).drop
      ((sfxEntriesStereo r.clip (1 / (sample_rate : ℚ)) r.cons data).2.2) = _
  rw [hs.1, hs.2.1]
  exact sorted_drop_eq_filter r.clip (data.length / 2) r.cons hsort

/-! ## Claim theorems: sfx queue behaviour -/

/-- C6: in every `SfxRenderer::render_mono` / `render_stereo` call on a
reachable queue (positions non-negative and non-increasing head to tail),
the queued entries are updated in place and never reordered, and the
entries removed by `advance(pop_count)` are exactly those whose clip was
exhausted (`sample` returned none): the resulting queue is the in-order
list of the unfinished entries with their updated positions, so removals
happen only at the queue's head strictly in FIFO order and an unfinished
older entry is never removed even when newer entries behind it finished
within the same callback. -/
theorem sfx_fifo_exhaustion (r : SfxRenderer) (sample_rate : ℕ) (data : List ℚ)
    (hinv : SfxQueueInv r.cons) :
    (r.render_mono sample_rate data).2.cons =
      (r.cons.filter
        (fun e => !(sfxFinished r.clip (1 / (sample_rate : ℚ)) data.length e))).map
        (sfxEntryAfter r.clip (1 / (sample_rate : ℚ)) data.length) ∧
    (r.render_stereo sample_rate data).2.cons =
      (r.cons.filter
        (fun e => !(sfxFinished r.clip (1 / (sample_rate : ℚ)) (data.length / 2) e))).map
        (sfxEntryAfter r.clip (1 / (sample_rate : ℚ)) (data.length / 2)) :=
  ⟨sfx_render_mono_cons r sample_rate data hinv.1,
   sfx_render_stereo_cons r sample_rate data hinv.1⟩

/-- Witness for `sfx_fifo_exhaustion` on a one-entry queue over a
one-frame clip, rendered over two mono samples (the entry finishes). -/
theorem sfx_fifo_exhaustion_witness :
    SfxQueueInv sfxC6.cons ∧
      (sfxC6.render_mono 1 [0, 0]).2.cons =
        (sfxC6.cons.filter
          (fun e => !(sfxFinished sfxC6.clip (1 / ((1 : ℕ) : ℚ)) [(0 : ℚ), 0].length e))).map
          (sfxEntryAfter sfxC6.clip (1 / ((1 : ℕ) : ℚ)) [(0 : ℚ), 0].length) :=
  ⟨⟨by simp [sfxC6], by simp [sfxC6]⟩,
   (sfx_fifo_exhaustion sfxC6 1 [0, 0] ⟨by simp [sfxC6], by simp [sfxC6]⟩).1⟩

theorem sfxInv_filter_map (clip : AudioClip) {delta : ℚ} (hd : 0 ≤ delta) (n : ℕ)
    (q : List (ℚ × PlaySfxParams))
    (hsort : q.Pairwise (fun a b => b.1 ≤ a.1)) (hpos : ∀ e ∈ q, 0 ≤ e.1) :
    SfxQueueInv ((q.filter (fun e => !(sfxFinished clip delta n e))).map
      (sfxEntryAfter clip delta n)) := by
  constructor
  · rw [List.pairwise_map]
    refine (hsort.filter _).imp_of_mem ?_
    intro a b ha hb hab
    have hfa : sfxFinished clip delta n a = false := by
      simpa using (List.mem_filter.mp ha).2
    have hfb : sfxFinished clip delta n b = false := by
      simpa using (List.mem_filter.mp hb).2
    unfold sfxFinished at hfa hfb
    show (sfxEntryAfter clip delta n b).1 ≤ (sfxEntryAfter clip delta n a).1
    unfold sfxEntryAfter
    rw [advancePos_not_finished_pos _ _ _ _ hfa, advancePos_not_finished_pos _ _ _ _ hfb]
    linarith
  · intro e' he'
    rw [List.mem_map] at he'
    obtain ⟨a, ha, rfl⟩ := he'
    have hmem := (List.mem_filter.mp ha).1
    have hfa : sfxFinished clip delta n a = false := by
      simpa using (List.mem_filter.mp ha).2
    unfold sfxFinished at hfa
    show 0 ≤ (sfxEntryAfter clip delta n a).1
    unfold sfxEntryAfter
    rw [advancePos_not_finished_pos _ _ _ _ hfa]
    have h1 := hpos a hmem
    have h2 : (0 : ℚ) ≤ (n : ℚ) * delta := mul_nonneg (by positivity) hd
    linarith

theorem sfx_uniform_advance (clip : AudioClip) (delta : ℚ) (n : ℕ)
    (e : ℚ × PlaySfxParams) (hf : sfxFinished clip delta n e = false) :
    (sfxEntryAfter clip delta n e).1 = e.1 + (n : ℚ) * delta := by
  unfold sfxFinished at hf
  unfold sfxEntryAfter
  rw [advancePos_not_finished_pos _ _ _ _ hf]

theorem sfx_finished_prefix (clip : AudioClip) (delta : ℚ) (n : ℕ)
    (q : List (ℚ × PlaySfxParams)) (hsort : q.Pairwise (fun a b => b.1 ≤ a.1)) :
    ∀ (i j : ℕ) (hi : i < q.length) (hj : j < q.length), i ≤ j →
      sfxFinished clip delta n (q.get ⟨j, hj⟩) = true →
      sfxFinished clip delta n (q.get ⟨i, hi⟩) = true := by
  intro i j hi hj hij hfin
  rcases Nat.lt_or_ge i j with hlt | hge
  · have hrel := List.pairwise_iff_get.mp hsort ⟨i, hi⟩ ⟨j, hj⟩ hlt
    unfold sfxFinished at hfin ⊢
    exact advancePos_finished_mono clip n hrel hfin
  · have hij2 : i = j := by omega
    subst hij2
    exact hfin

/-- C10: queue positions are always non-negative and non-increasing from
head to tail: `Sfx::play` pushes position 0 at the tail and preserves the
invariant, and each render call — `render_mono` over `data.length` frames
and `render_stereo` over `data.length / 2` interleaved frames — advances
every unfinished entry by exactly the frame count times `delta` while
finished entries stop advancing, the entries that finish form a prefix of
the queue, and `advance(pop_count)` removes exactly the finished entries
(never an unfinished one), preserving the invariant. -/
theorem sfx_queue_positions (r : SfxRenderer) (params : PlaySfxParams)
    (sample_rate : ℕ) (data : List ℚ) (hinv : SfxQueueInv r.cons) :
    SfxQueueInv (sfxPlay r params).cons ∧
    SfxQueueInv ((r.render_mono sample_rate data).2).cons ∧
    SfxQueueInv ((r.render_stereo sample_rate data).2).cons ∧
    (∀ e ∈ r.cons,
      sfxFinished r.clip (1 / (sample_rate : ℚ)) data.length e = false →
      (sfxEntryAfter r.clip (1 / (sample_rate : ℚ)) data.length e).1 =
        e.1 + (data.length : ℚ) * (1 / (sample_rate : ℚ))) ∧
    (∀ e ∈ r.cons,
      sfxFinished r.clip (1 / (sample_rate : ℚ)) (data.length / 2) e = false →
      (sfxEntryAfter r.clip (1 / (sample_rate : ℚ)) (data.length / 2) e).1 =
        e.1 + ((data.length / 2 : ℕ) : ℚ) * (1 / (sample_rate : ℚ))) ∧
    (∀ (i j : ℕ) (hi : i < r.cons.length) (hj : j < r.cons.length), i ≤ j →
      sfxFinished r.clip (1 / (sample_rate : ℚ)) data.length (r.cons.get ⟨j, hj⟩) = true →
      sfxFinished r.clip (1 / (sample_rate : ℚ)) data.length (r.cons.get ⟨i, hi⟩) = true) ∧
    (∀ (i j : ℕ) (hi : i < r.cons.length) (hj : j < r.cons.length), i ≤ j →
      sfxFinished r.clip (1 / (sample_rate : ℚ)) (data.length / 2)
        (r.cons.get ⟨j, hj⟩) = true →
      sfxFinished r.clip (1 / (sample_rate : ℚ)) (data.length / 2)
        (r.cons.get ⟨i, hi⟩) = true) ∧
    ((r.render_mono sample_rate data).2).cons =
      (r.cons.filter
        (fun e => !(sfxFinished r.clip (1 / (sample_rate : ℚ)) data.length e))).map
        (sfxEntryAfter r.clip (1 / (sample_rate : ℚ)) data.length) ∧
    ((r.render_stereo sample_rate data).2).cons =
      (r.cons.filter
        (fun e => !(sfxFinished r.clip (1 / (sample_rate : ℚ)) (data.length / 2) e))).map
        (sfxEntryAfter r.clip (1 / (sample_rate : ℚ)) (data.length / 2)) := by
  obtain ⟨hsort, hpos⟩ := hinv
  have hd : (0 : ℚ) ≤ 1 / (sample_rate : ℚ) := by positivity
  have hm := sfx_render_mono_cons r sample_rate data hsort
  have hs := sfx_render_stereo_cons r sample_rate data hsort
  refine ⟨⟨?_, ?_⟩, ?_, ?_,
    fun e _ hf => sfx_uniform_advance r.clip (1 / (sample_rate : ℚ)) data.length e hf,
    fun e _ hf =>
      sfx_uniform_advance r.clip (1 / (sample_rate : ℚ)) (data.length / 2) e hf,
    sfx_finished_prefix r.clip (1 / (sample_rate : ℚ)) data.length r.cons hsort,
    sfx_finished_prefix r.clip (1 / (sample_rate : ℚ)) (data.length / 2) r.cons hsort,
    hm, hs⟩
  · show (r.cons ++ [(0, params)]).Pairwise (fun (a b : ℚ × PlaySfxParams) => b.1 ≤ a.1)
    refine List.pairwise_append.mpr ⟨hsort, by simp, ?_⟩
    intro a ha b hb
    rw [List.mem_singleton] at hb
    subst hb
    exact hpos a ha
  · intro e he
    rcases List.mem_append.mp he with h | h
    · exact hpos e h
    · rw [List.mem_singleton] at h
      subst h
      exact le_refl 0
  · rw [hm]
    exact sfxInv_filter_map r.clip hd data.length r.cons hsort hpos
  · rw [hs]
    exact sfxInv_filter_map r.clip hd (data.length / 2) r.cons hsort hpos

/-- Witness for `sfx_queue_positions`: pushing a new trigger onto the
one-entry queue keeps the invariant. -/
theorem sfx_queue_positions_witness :
    SfxQueueInv sfxC6.cons ∧ SfxQueueInv (sfxPlay sfxC6 ⟨1⟩).cons :=
  ⟨⟨by simp [sfxC6], by simp [sfxC6]⟩,
   (sfx_queue_positions sfxC6 ⟨1⟩ 1 [0, 0] ⟨by simp [sfxC6], by simp [sfxC6]⟩).1⟩

/-! ## Mixer additivity lemmas -/

theorem zipWith_add_replicate_zero : ∀ l : List ℚ,
    List.zipWith (· + ·) l (List.replicate l.length 0) = l
  | [] => rfl
  | x :: rest => by
      simp only [List.length_cons, List.replicate_succ, List.zipWith_cons_cons,
        zipWith_add_replicate_zero rest, add_zero]

theorem zipWith_zero_left : ∀ (S : List ℚ) (n : ℕ), S.length = n →
    List.zipWith (· + ·) (List.replicate n 0) S = S
  | [], n, h => by simp
  | x :: rest, n, h => by
      cases n with
      | zero => simp at h
      | succ m =>
          simp only [List.replicate_succ, List.zipWith_cons_cons, zero_add]
          rw [zipWith_zero_left rest m (by simpa using h)]

theorem zipWith_add_assoc : ∀ a b c : List ℚ,
    List.zipWith (· + ·) (List.zipWith (· + ·) a b) c =
      List.zipWith (· + ·) a (List.zipWith (· + ·) b c)
  | [], _, _ => by simp
  | _ :: _, [], _ => by simp
  | _ :: _, _ :: _, [] => by simp
  | x :: xs, y :: ys, z :: zs => by
      simp only [List.zipWith_cons_cons, zipWith_add_assoc xs ys zs, add_assoc]

theorem sumBuffers_length (len : ℕ) : ∀ l : List (List ℚ),
    (∀ b ∈ l, b.length = len) → (sumBuffers len l).length = len
  | [], _ => by simp [sumBuffers]
  | b :: rest, h => by
      simp only [sumBuffers, List.foldr_cons]
      rw [List.length_zipWith]
      have h1 : b.length = len := h b (List.mem_cons_self b rest)
      have h2 : (sumBuffers len rest).length = len :=
        sumBuffers_length len rest fun c hc => h c (List.mem_cons_of_mem b hc)
      simp only [sumBuffers] at h2
      omega

theorem renderLoopMono_split :
    ∀ (data : List ℚ) (r : MusicRenderer) (position delta : ℚ),
      (r.renderLoopMono position delta data).1 =
        List.zipWith (· + ·) data
          ((r.renderLoopMono position delta (List.replicate data.length 0)).1) ∧
      (r.renderLoopMono position delta data).2 =
        (r.renderLoopMono position delta (List.replicate data.length 0)).2 ∧
      (r.renderLoopMono position delta data).1.length = data.length := by
  intro data
  induction data with
  | nil =>
      intro r position delta
      simp [MusicRenderer.renderLoopMono]
  | cons x rest ih =>
      intro r position delta
      rcases hf : r.frame position delta with ⟨fr, r1⟩
      cases fr with
      | some frame =>
          have ihm := ih (r1.update_and_get frame).2 (position + delta) delta
          simp only [MusicRenderer.renderLoopMono, hf, List.length_cons,
            List.replicate_succ, List.zipWith_cons_cons, zero_add]
          exact ⟨by rw [ihm.1], ihm.2.1, by simp [ihm.2.2]⟩
      | none =>
          simp only [MusicRenderer.renderLoopMono, hf, List.length_cons,
            List.replicate_succ, List.zipWith_cons_cons, add_zero]
          exact ⟨by rw [zipWith_add_replicate_zero], by trivial, by simp⟩

theorem renderLoopStereo_split :
    ∀ (data : List ℚ) (r : MusicRenderer) (position delta : ℚ),
      (r.renderLoopStereo position delta data).1 =
        List.zipWith (· + ·) data
          ((r.renderLoopStereo position delta (List.replicate data.length 0)).1) ∧
      (r.renderLoopStereo position delta data).2 =
        (r.renderLoopStereo position delta (List.replicate data.length 0)).2 ∧
      (r.renderLoopStereo position delta data).1.length = data.length
  | [], r, position, delta => by simp [MusicRenderer.renderLoopStereo]
  | [x], r, position, delta => by simp [MusicRenderer.renderLoopStereo]
  | a :: b :: rest, r, position, delta => by
      rcases hf : r.frame position delta with ⟨fr, r1⟩
      cases fr with
      | some frame =>
          have ihm := renderLoopStereo_split rest (r1.update_and_get frame).2
            (position + delta) delta
          simp only [MusicRenderer.renderLoopStereo, hf, List.length_cons,
            List.replicate_succ, List.zipWith_cons_cons, zero_add]
          exact ⟨by rw [ihm.1], ihm.2.1, by simp [ihm.2.2]⟩
      | none =>
          simp only [MusicRenderer.renderLoopStereo, hf, List.length_cons,
            List.replicate_succ, List.zipWith_cons_cons, add_zero]
          exact ⟨by rw [zipWith_add_replicate_zero rest], by trivial, by simp⟩

theorem music_render_mono_split (r : MusicRenderer) (sample_rate : ℕ) (data : List ℚ) :
    (r.render_mono sample_rate data).1 =
      List.zipWith (· + ·) data
        ((r.render_mono sample_rate (List.replicate data.length 0)).1) ∧
    (r.render_mono sample_rate data).2 =
      (r.render_mono sample_rate (List.replicate data.length 0)).2 ∧
    (r.render_mono sample_rate data).1.length = data.length := by
  unfold MusicRenderer.render_mono
  simp only [List.length_replicate]
  by_cases hp : (r.prepare sample_rate).paused
  · simp only [if_pos hp]
    exact ⟨(zipWith_add_replicate_zero data).symm, by trivial, by trivial⟩
  · simp only [if_neg hp]
    have h := renderLoopMono_split data (r.prepare sample_rate)
      (((r.prepare sample_rate).index : ℚ) *
        (1 / (sample_rate : ℚ) * (r.prepare sample_rate).settings.playback_rate))
      (1 / (sample_rate : ℚ) * (r.prepare sample_rate).settings.playback_rate)
    exact ⟨h.1, by rw [h.2.1], h.2.2⟩

theorem music_render_stereo_split (r : MusicRenderer) (sample_rate : ℕ) (data : List ℚ) :
    (r.render_stereo sample_rate data).1 =
      List.zipWith (· + ·) data
        ((r.render_stereo sample_rate (List.replicate data.length 0)).1) ∧
    (r.render_stereo sample_rate data).2 =
      (r.render_stereo sample_rate (List.replicate data.length 0)).2 ∧
    (r.render_stereo sample_rate data).1.length = data.length := by
  unfold MusicRenderer.render_stereo
  simp only [List.length_replicate]
  by_cases hp : (r.prepare sample_rate).paused
  · simp only [if_pos hp]
    exact ⟨(zipWith_add_replicate_zero data).symm, by trivial, by trivial⟩
  · simp only [if_neg hp]
    have h := renderLoopStereo_split data (r.prepare sample_rate)
      (((r.prepare sample_rate).index : ℚ) *
        (1 / (sample_rate : ℚ) * (r.prepare sample_rate).settings.playback_rate))
      (1 / (sample_rate : ℚ) * (r.prepare sample_rate).settings.playback_rate)
    exact ⟨h.1, by rw [h.2.1], h.2.2⟩

theorem sfxEntryMono_split (clip : AudioClip) (delta amp : ℚ) :
    ∀ (data : List ℚ) (pos : ℚ),
      (sfxEntryMono clip delta amp data pos).1 =
        List.zipWith (· + ·) data
          ((sfxEntryMono clip delta amp (List.replicate data.length 0) pos).1) := by
  intro data
  induction data with
  | nil =>
      intro pos
      simp [sfxEntryMono]
  | cons x rest ih =>
      intro pos
      cases hs : clip.sample pos with
      | some f =>
          simp only [sfxEntryMono, hs, List.length_cons, List.replicate_succ,
            List.zipWith_cons_cons, zero_add]
          rw [ih (pos + delta)]
      | none =>
          simp only [sfxEntryMono, hs, List.length_cons, List.replicate_succ,
            List.zipWith_cons_cons, add_zero]
          rw [zipWith_add_replicate_zero rest]

theorem sfxEntryStereo_split (clip : AudioClip) (delta amp : ℚ) :
    ∀ (data : List ℚ) (pos : ℚ),
      (sfxEntryStereo clip delta amp data pos).1 =
        List.zipWith (· + ·) data
          ((sfxEntryStereo clip delta amp (List.replicate data.length 0) pos).1)
  | [], pos => by simp [sfxEntryStereo]
  | [x], pos => by simp [sfxEntryStereo, List.replicate_succ]
  | a :: b :: rest, pos => by
      cases hs : clip.sample pos with
      | some f =>
          simp only [sfxEntryStereo, hs, List.length_cons, List.replicate_succ,
            List.zipWith_cons_cons, zero_add]
          rw [sfxEntryStereo_split clip delta amp rest (pos + delta)]
      | none =>
          simp only [sfxEntryStereo, hs, List.length_cons, List.replicate_succ,
            List.zipWith_cons_cons, add_zero]
          rw [zipWith_add_replicate_zero rest]

theorem sfxEntriesMono_split (clip : AudioClip) (delta : ℚ) :
    ∀ (q : List (ℚ × PlaySfxParams)) (data : List ℚ),
      (sfxEntriesMono clip delta q data).1 =
        List.zipWith (· + ·) data
          ((sfxEntriesMono clip delta q (List.replicate data.length 0)).1) := by
  intro q
  induction q with
  | nil =>
      intro data
      simp only [sfxEntriesMono]
      rw [zipWith_add_replicate_zero data]
  | cons e rest ih =>
      intro data
      simp only [sfxEntriesMono]
      have hsplit := sfxEntryMono_split clip delta e.2.amplifier data e.1
      have hlen : (sfxEntryMono clip delta e.2.amplifier data e.1).1.length =
          data.length := (sfxEntryMono_spec clip delta e.2.amplifier data e.1).2
      have hlen0 : (sfxEntryMono clip delta e.2.amplifier
          (List.replicate data.length 0) e.1).1.length = data.length := by
        rw [(sfxEntryMono_spec clip delta e.2.amplifier _ e.1).2, List.length_replicate]
      have ih1 := ih (sfxEntryMono clip delta e.2.amplifier data e.1).1
      have ih0 := ih (sfxEntryMono clip delta e.2.amplifier
        (List.replicate data.length 0) e.1).1
      rw [ih1, hlen, hsplit, ih0, hlen0]
      exact zipWith_add_assoc data _ _

theorem sfxEntriesStereo_split (clip : AudioClip) (delta : ℚ) :
    ∀ (q : List (ℚ × PlaySfxParams)) (data : List ℚ),
      (sfxEntriesStereo clip delta q data).1 =
        List.zipWith (· + ·) data
          ((sfxEntriesStereo clip delta q (List.replicate data.length 0)).1) := by
  intro q
  induction q with
  | nil =>
      intro data
      simp only [sfxEntriesStereo]
      rw [zipWith_add_replicate_zero data]
  | cons e rest ih =>
      intro data
      simp only [sfxEntriesStereo]
      have hsplit := sfxEntryStereo_split clip delta e.2.amplifier data e.1
      have hlen : (sfxEntryStereo clip delta e.2.amplifier data e.1).1.length =
          data.length := (sfxEntryStereo_spec clip delta e.2.amplifier data e.1).2
      have hlen0 : (sfxEntryStereo clip delta e.2.amplifier
          (List.replicate data.length 0) e.1).1.length = data.length := by
        rw [(sfxEntryStereo_spec clip delta e.2.amplifier _ e.1).2, List.length_replicate]
      have ih1 := ih (sfxEntryStereo clip delta e.2.amplifier data e.1).1
      have ih0 := ih (sfxEntryStereo clip delta e.2.amplifier
        (List.replicate data.length 0) e.1).1
      rw [ih1, hlen, hsplit, ih0, hlen0]
      exact zipWith_add_assoc data _ _

theorem sfx_render_mono_split (r : SfxRenderer) (sample_rate : ℕ) (data : List ℚ) :
    (r.render_mono sample_rate data).1 =
      List.zipWith (· + ·) data
        ((r.render_mono sample_rate (List.replicate data.length 0)).1) ∧
    (r.render_mono sample_rate data).2 =
      (r.render_mono sample_rate (List.replicate data.length 0)).2 ∧
    (r.render_mono sample_rate data).1.length = data.length := by
  have ha := sfxEntriesMono_spec r.clip (1 / (sample_rate : ℚ)) r.cons data
  have hb := sfxEntriesMono_spec r.clip (1 / (sample_rate : ℚ)) r.cons
    (List.replicate data.length 0)
  refine ⟨?_, ?_, ha.2.2⟩
  · show (sfxEntriesMono r.clip (1 / (sample_rate : ℚ)) r.cons data).1 = _
    rw [sfxEntriesMono_split r.clip (1 / (sample_rate : ℚ)) r.cons data]
    rfl
  · show ({ r with cons := _ } : SfxRenderer) = { r with cons := _ }
    congr 1
    rw [ha.1, hb.1, ha.2.1, hb.2.1, List.length_replicate]

theorem sfx_render_stereo_split (r : SfxRenderer) (sample_rate : ℕ) (data : List ℚ) :
    (r.render_stereo sample_rate data).1 =
      List.zipWith (· + ·) data
        ((r.render_stereo sample_rate (List.replicate data.length 0)).1) ∧
    (r.render_stereo sample_rate data).2 =
      (r.render_stereo sample_rate (List.replicate data.length 0)).2 ∧
    (r.render_stereo sample_rate data).1.length = data.length := by
  have ha := sfxEntriesStereo_spec r.clip (1 / (sample_rate : ℚ)) r.cons data
  have hb := sfxEntriesStereo_spec r.clip (1 / (sample_rate : ℚ)) r.cons
    (List.replicate data.length 0)
  refine ⟨?_, ?_, ha.2.2⟩
  · show (sfxEntriesStereo r.clip (1 / (sample_rate : ℚ)) r.cons data).1 = _
    rw [sfxEntriesStereo_split r.clip (1 / (sample_rate : ℚ)) r.cons data]
    rfl
  · show ({ r with cons := _ } : SfxRenderer) = { r with cons := _ }
    congr 1
    rw [ha.1, hb.1, ha.2.1, hb.2.1, List.length_replicate]

theorem source_render_mono_split (s : Source) (sample_rate : ℕ) (data : List ℚ) :
    (s.render_mono sample_rate data).1 =
      List.zipWith (· + ·) data (Source.contribMono sample_rate data.length s) ∧
    (s.render_mono sample_rate data).2 = Source.stepMono sample_rate data.length s ∧
    (s.render_mono sample_rate data).1.length = data.length := by
  cases s with
  | music r =>
      have h := music_render_mono_split r sample_rate data
      exact ⟨h.1, congrArg Source.music h.2.1, h.2.2⟩
  | sfx r =>
      have h := sfx_render_mono_split r sample_rate data
      exact ⟨h.1, congrArg Source.sfx h.2.1, h.2.2⟩

theorem source_render_stereo_split (s : Source) (sample_rate : ℕ) (data : List ℚ) :
    (s.render_stereo sample_rate data).1 =
      List.zipWith (· + ·) data (Source.contribStereo sample_rate data.length s) ∧
    (s.render_stereo sample_rate data).2 = Source.stepStereo sample_rate data.length s ∧
    (s.render_stereo sample_rate data).1.length = data.length := by
  cases s with
  | music r =>
      have h := music_render_stereo_split r sample_rate data
      exact ⟨h.1, congrArg Source.music h.2.1, h.2.2⟩
  | sfx r =>
      have h := sfx_render_stereo_split r sample_rate data
      exact ⟨h.1, congrArg Source.sfx h.2.1, h.2.2⟩

theorem applyCommand_state_none (r : MusicRenderer) (sample_rate : ℕ) (c : MusicCommand)
    (h : r.state = none) : (r.applyCommand sample_rate c).state = none := by
  cases c <;> simp [MusicRenderer.applyCommand, storePaused, h, apply_ite]

theorem foldl_applyCommand_state_none (sample_rate : ℕ) :
    ∀ (cs : List MusicCommand) (r : MusicRenderer), r.state = none →
      ((cs.foldl (fun acc c => acc.applyCommand sample_rate c) r)).state = none
  | [], _, h => h
  | c :: rest, r, h =>
      foldl_applyCommand_state_none sample_rate rest _
        (applyCommand_state_none r sample_rate c h)

theorem prepare_state_none (r : MusicRenderer) (sample_rate : ℕ) (h : r.state = none) :
    (r.prepare sample_rate).state = none := by
  unfold MusicRenderer.prepare
  split_ifs <;> (apply foldl_applyCommand_state_none; simpa using h)

theorem frame_state_none (r : MusicRenderer) (pos delta : ℚ) (h : r.state = none) :
    ((r.frame pos delta).2).state = none := by
  unfold MusicRenderer.frame
  cases hs : r.clip.sample pos with
  | some f =>
      simp only [hs]
      split_ifs <;> simp [storePaused, h]
  | none =>
      simp only [hs]
      split_ifs <;> simp [storePaused, h]

theorem renderLoopMono_state_none :
    ∀ (data : List ℚ) (r : MusicRenderer) (pos delta : ℚ), r.state = none →
      ((r.renderLoopMono pos delta data).2).state = none
  | [], _, _, _, h => h
  | x :: rest, r, pos, delta, h => by
      rcases hf : r.frame pos delta with ⟨fr, r1⟩
      have h1 : r1.state = none := by
        have h2 := frame_state_none r pos delta h
        rw [hf] at h2
        exact h2
      cases fr with
      | some frame =>
          simp only [MusicRenderer.renderLoopMono, hf]
          exact renderLoopMono_state_none rest (r1.update_and_get frame).2
            (pos + delta) delta (by simpa [MusicRenderer.update_and_get] using h1)
      | none =>
          simp only [MusicRenderer.renderLoopMono, hf]
          exact h1

theorem renderLoopStereo_state_none :
    ∀ (data : List ℚ) (r : MusicRenderer) (pos delta : ℚ), r.state = none →
      ((r.renderLoopStereo pos delta data).2).state = none
  | [], _, _, _, h => h
  | [_], _, _, _, h => h
  | a :: b :: rest, r, pos, delta, h => by
      rcases hf : r.frame pos delta with ⟨fr, r1⟩
      have h1 : r1.state = none := by
        have h2 := frame_state_none r pos delta h
        rw [hf] at h2
        exact h2
      cases fr with
      | some frame =>
          simp only [MusicRenderer.renderLoopStereo, hf]
          exact renderLoopStereo_state_none rest (r1.update_and_get frame).2
            (pos + delta) delta (by simpa [MusicRenderer.update_and_get] using h1)
      | none =>
          simp only [MusicRenderer.renderLoopStereo, hf]
          exact h1

theorem music_render_mono_state_none (r : MusicRenderer) (sample_rate : ℕ)
    (data : List ℚ) (h : r.state = none) :
    ((r.render_mono sample_rate data).2).state = none := by
  unfold MusicRenderer.render_mono
  have hp := prepare_state_none r sample_rate h
  by_cases hpp : (r.prepare sample_rate).paused
  · simp only [if_pos hpp]
    exact hp
  · simp only [if_neg hpp]
    have hl := renderLoopMono_state_none data (r.prepare sample_rate)
      (((r.prepare sample_rate).index : ℚ) *
        (1 / (sample_rate : ℚ) * (r.prepare sample_rate).settings.playback_rate))
      (1 / (sample_rate : ℚ) * (r.prepare sample_rate).settings.playback_rate) hp
    simpa [MusicRenderer.publishPosition, one_div] using hl

theorem music_render_stereo_state_none (r : MusicRenderer) (sample_rate : ℕ)
    (data : List ℚ) (h : r.state = none) :
    ((r.render_stereo sample_rate data).2).state = none := by
  unfold MusicRenderer.render_stereo
  have hp := prepare_state_none r sample_rate h
  by_cases hpp : (r.prepare sample_rate).paused
  · simp only [if_pos hpp]
    exact hp
  · simp only [if_neg hpp]
    have hl := renderLoopStereo_state_none data (r.prepare sample_rate)
      (((r.prepare sample_rate).index : ℚ) *
        (1 / (sample_rate : ℚ) * (r.prepare sample_rate).settings.playback_rate))
      (1 / (sample_rate : ℚ) * (r.prepare sample_rate).settings.playback_rate) hp
    simpa [MusicRenderer.publishPosition, one_div] using hl

theorem contribMono_length (sample_rate len : ℕ) (s : Source) :
    (Source.contribMono sample_rate len s).length = len := by
  have h := (source_render_mono_split s sample_rate (List.replicate len 0)).2.2
  simpa [Source.contribMono] using h

theorem contribStereo_length (sample_rate len : ℕ) (s : Source) :
    (Source.contribStereo sample_rate len s).length = len := by
  have h := (source_render_stereo_split s sample_rate (List.replicate len 0)).2.2
  simpa [Source.contribStereo] using h

theorem retainRenderMono_spec (sample_rate : ℕ) :
    ∀ (l : List Source) (data : List ℚ),
      (retainRenderMono sample_rate l data).1 =
        List.zipWith (· + ·) data
          (sumBuffers data.length (l.map (Source.contribMono sample_rate data.length))) ∧
      (retainRenderMono sample_rate l data).2 =
        (l.map (Source.stepMono sample_rate data.length)).filter Source.alive ∧
      (retainRenderMono sample_rate l data).1.length = data.length := by
  intro l
  induction l with
  | nil =>
      intro data
      simp only [retainRenderMono, List.map_nil, sumBuffers, List.foldr_nil,
        List.filter_nil]
      exact ⟨(zipWith_add_replicate_zero data).symm, by trivial, by trivial⟩
  | cons s rest ih =>
      intro data
      have hsrc := source_render_mono_split s sample_rate data
      have ihp := ih (s.render_mono sample_rate data).1
      rw [hsrc.2.2] at ihp
      refine ⟨?_, ?_, ?_⟩
      · show (retainRenderMono sample_rate rest (s.render_mono sample_rate data).1).1 = _
        rw [ihp.1, hsrc.1, List.map_cons]
        show _ = List.zipWith (· + ·) data
          (List.zipWith (· + ·) (Source.contribMono sample_rate data.length s)
            (sumBuffers data.length (rest.map (Source.contribMono sample_rate data.length))))
        exact zipWith_add_assoc _ _ _
      · show (if (s.render_mono sample_rate data).2.alive then
            (s.render_mono sample_rate data).2 ::
              (retainRenderMono sample_rate rest (s.render_mono sample_rate data).1).2
          else (retainRenderMono sample_rate rest (s.render_mono sample_rate data).1).2) = _
        rw [List.map_cons, List.filter_cons, ihp.2.1, hsrc.2.1]
      · show (retainRenderMono sample_rate rest (s.render_mono sample_rate data).1).1.length = _
        exact ihp.2.2

theorem retainRenderStereo_spec (sample_rate : ℕ) :
    ∀ (l : List Source) (data : List ℚ),
      (retainRenderStereo sample_rate l data).1 =
        List.zipWith (· + ·) data
          (sumBuffers data.length (l.map (Source.contribStereo sample_rate data.length))) ∧
      (retainRenderStereo sample_rate l data).2 =
        (l.map (Source.stepStereo sample_rate data.length)).filter Source.alive ∧
      (retainRenderStereo sample_rate l data).1.length = data.length := by
  intro l
  induction l with
  | nil =>
      intro data
      simp only [retainRenderStereo, List.map_nil, sumBuffers, List.foldr_nil,
        List.filter_nil]
      exact ⟨(zipWith_add_replicate_zero data).symm, by trivial, by trivial⟩
  | cons s rest ih =>
      intro data
      have hsrc := source_render_stereo_split s sample_rate data
      have ihp := ih (s.render_stereo sample_rate data).1
      rw [hsrc.2.2] at ihp
      refine ⟨?_, ?_, ?_⟩
      · show (retainRenderStereo sample_rate rest (s.render_stereo sample_rate data).1).1 = _
        rw [ihp.1, hsrc.1, List.map_cons]
        show _ = List.zipWith (· + ·) data
          (List.zipWith (· + ·) (Source.contribStereo sample_rate data.length s)
            (sumBuffers data.length (rest.map (Source.contribStereo sample_rate data.length))))
        exact zipWith_add_assoc _ _ _
      · show (if (s.render_stereo sample_rate data).2.alive then
            (s.render_stereo sample_rate data).2 ::
              (retainRenderStereo sample_rate rest (s.render_stereo sample_rate data).1).2
          else (retainRenderStereo sample_rate rest (s.render_stereo sample_rate data).1).2) = _
        rw [List.map_cons, List.filter_cons, ihp.2.1, hsrc.2.1]
      · show (retainRenderStereo sample_rate rest (s.render_stereo sample_rate data).1).1.length = _
        exact ihp.2.2

/-! ## Claim theorem: mixer -/

/-- C2: every `Mixer::render_mono` / `render_stereo` call first drains the
pending `AddRenderer` commands (appending them to the source list in FIFO
order), zeroes the output buffer, renders each source in insertion order
and removes a source exactly when its `alive()` is false after its render
call; the resulting buffer is the per-sample sum of the individual
sources' contributions, and a `MusicRenderer` whose `Music` handle was
dropped (shared state gone, so `alive()` tests a zero strong count) is
never present in the source list after the callback. -/
theorem mixer_render_correct (m : Mixer) (data : List ℚ) :
    ((m.render_mono data).1 =
        sumBuffers data.length
          ((m.renderers ++ m.cons).map (Source.contribMono m.sample_rate data.length)) ∧
     (m.render_mono data).2.renderers =
        ((m.renderers ++ m.cons).map (Source.stepMono m.sample_rate data.length)).filter
          Source.alive ∧
     (m.render_mono data).2.cons = [] ∧
     (∀ r : MusicRenderer, r.state = none →
        Source.alive (Source.stepMono m.sample_rate data.length (Source.music r)) = false) ∧
     (∀ s ∈ (m.render_mono data).2.renderers, s.alive = true)) ∧
    ((m.render_stereo data).1 =
        sumBuffers data.length
          ((m.renderers ++ m.cons).map (Source.contribStereo m.sample_rate data.length)) ∧
     (m.render_stereo data).2.renderers =
        ((m.renderers ++ m.cons).map (Source.stepStereo m.sample_rate data.length)).filter
          Source.alive ∧
     (m.render_stereo data).2.cons = [] ∧
     (∀ r : MusicRenderer, r.state = none →
        Source.alive (Source.stepStereo m.sample_rate data.length (Source.music r)) = false) ∧
     (∀ s ∈ (m.render_stereo data).2.renderers, s.alive = true)) := by
  have hzm := retainRenderMono_spec m.sample_rate (m.renderers ++ m.cons)
    (List.replicate data.length 0)
  have hzs := retainRenderStereo_spec m.sample_rate (m.renderers ++ m.cons)
    (List.replicate data.length 0)
  simp only [List.length_replicate] at hzm hzs
  have hsum_m : (sumBuffers data.length
      ((m.renderers ++ m.cons).map (Source.contribMono m.sample_rate data.length))).length =
      data.length := by
    apply sumBuffers_length
    intro b hb
    rcases List.mem_map.mp hb with ⟨s, _, rfl⟩
    exact contribMono_length m.sample_rate data.length s
  have hsum_s : (sumBuffers data.length
      ((m.renderers ++ m.cons).map (Source.contribStereo m.sample_rate data.length))).length =
      data.length := by
    apply sumBuffers_length
    intro b hb
    rcases List.mem_map.mp hb with ⟨s, _, rfl⟩
    exact contribStereo_length m.sample_rate data.length s
  refine ⟨⟨?_, ?_, rfl, ?_, ?_⟩, ?_, ?_, rfl, ?_, ?_⟩
  · show (retainRenderMono m.sample_rate (m.renderers ++ m.cons)
      (List.replicate data.length 0)).1 = _
    rw [hzm.1]
    exact zipWith_zero_left _ data.length hsum_m
  · show (retainRenderMono m.sample_rate (m.renderers ++ m.cons)
      (List.replicate data.length 0)).2 = _
    exact hzm.2.1
  · intro r h
    have hn := music_render_mono_state_none r m.sample_rate
      (List.replicate data.length 0) h
    simp [Source.stepMono, Source.render_mono, Source.alive, MusicRenderer.alive, hn]
  · intro s hs
    show Source.alive s = true
    have : s ∈ (retainRenderMono m.sample_rate (m.renderers ++ m.cons)
        (List.replicate data.length 0)).2 := hs
    rw [hzm.2.1] at this
    exact (List.mem_filter.mp this).2
  · show (retainRenderStereo m.sample_rate (m.renderers ++ m.cons)
      (List.replicate data.length 0)).1 = _
    rw [hzs.1]
    exact zipWith_zero_left _ data.length hsum_s
  · show (retainRenderStereo m.sample_rate (m.renderers ++ m.cons)
      (List.replicate data.length 0)).2 = _
    exact hzs.2.1
  · intro r h
    have hn := music_render_stereo_state_none r m.sample_rate
      (List.replicate data.length 0) h
    simp [Source.stepStereo, Source.render_stereo, Source.alive, MusicRenderer.alive, hn]
  · intro s hs
    show Source.alive s = true
    have : s ∈ (retainRenderStereo m.sample_rate (m.renderers ++ m.cons)
        (List.replicate data.length 0)).2 := hs
    rw [hzs.2.1] at this
    exact (List.mem_filter.mp this).2

/-! ## Stretcher lemmas -/

theorem hanning_length (c : ℕ → ℕ → ℚ) (len : ℕ) : (hanning c len).length = len := by
  simp [hanning]

theorem mergeAt_length (fft env : List ℚ) (amp : ℚ) (pos half : ℕ) :
    ∀ out : List ℚ, (mergeAt out fft env amp pos half).length = out.length := by
  unfold mergeAt
  generalize List.range half = is
  induction is with
  | nil => intro out; rfl
  | cons i rest ih =>
      intro out
      simp only [List.foldl_cons]
      rw [ih]
      exact List.length_set ..

theorem ensure_fields (st : Stretcher) (n : ℕ) :
    (st.ensure_input_samples_available n).re_fft = st.re_fft ∧
    (st.ensure_input_samples_available n).window_len = st.window_len ∧
    (st.ensure_input_samples_available n).half_window_len = st.half_window_len ∧
    (st.ensure_input_samples_available n).samples_needed_per_window =
      st.samples_needed_per_window ∧
    (st.ensure_input_samples_available n).output_buf = st.output_buf ∧
    (st.ensure_input_samples_available n).amp_correction_envelope =
      st.amp_correction_envelope ∧
    (st.ensure_input_samples_available n).corrected_amp_factor =
      st.corrected_amp_factor := by
  unfold Stretcher.ensure_input_samples_available
  split_ifs <;> exact ⟨rfl, rfl, rfl, rfl, rfl, rfl, rfl⟩

theorem stepOnce_fields (st : Stretcher) (pos : ℕ) :
    (st.stepOnce pos).re_fft = st.re_fft ∧
    (st.stepOnce pos).window_len = st.window_len ∧
    (st.stepOnce pos).half_window_len = st.half_window_len ∧
    (st.stepOnce pos).samples_needed_per_window = st.samples_needed_per_window := by
  unfold Stretcher.stepOnce
  have h := ensure_fields st st.window_len
  exact ⟨h.1, h.2.1, h.2.2.1, h.2.2.2.1⟩

theorem stepOnce_output_length (st : Stretcher) (pos : ℕ)
    (hres : ∀ xs, (st.re_fft.resynth xs).length = st.window_len) :
    (st.stepOnce pos).output_buf.length =
      st.output_buf.length + (st.window_len - st.half_window_len) := by
  unfold Stretcher.stepOnce
  have h := ensure_fields st st.window_len
  rw [List.length_append, mergeAt_length, List.length_drop, h.2.2.2.2.1, h.1, h.2.2.1,
    hres]

theorem loopWindows_fields : ∀ (fuel : ℕ) (st : Stretcher) (pos : ℕ),
    (Stretcher.loopWindows fuel st pos).re_fft = st.re_fft ∧
    (Stretcher.loopWindows fuel st pos).window_len = st.window_len ∧
    (Stretcher.loopWindows fuel st pos).half_window_len = st.half_window_len ∧
    (Stretcher.loopWindows fuel st pos).samples_needed_per_window =
      st.samples_needed_per_window
  | 0, st, pos => ⟨rfl, rfl, rfl, rfl⟩
  | fuel + 1, st, pos => by
      unfold Stretcher.loopWindows
      split_ifs
      · have h1 := stepOnce_fields st pos
        have h2 := loopWindows_fields fuel (st.stepOnce pos) (pos + st.half_window_len)
        exact ⟨h2.1.trans h1.1, h2.2.1.trans h1.2.1, h2.2.2.1.trans h1.2.2.1,
          h2.2.2.2.trans h1.2.2.2⟩
      · exact ⟨rfl, rfl, rfl, rfl⟩

theorem loopWindows_length : ∀ (fuel : ℕ) (st : Stretcher) (pos : ℕ),
    (∀ xs, (st.re_fft.resynth xs).length = st.window_len) →
    st.half_window_len < st.window_len →
    st.samples_needed_per_window + st.half_window_len ≤ st.output_buf.length + fuel →
    st.samples_needed_per_window + st.half_window_len ≤
      (Stretcher.loopWindows fuel st pos).output_buf.length
  | 0, st, pos, _, _, hfuel => by simpa using hfuel
  | fuel + 1, st, pos, hres, hHW, hfuel => by
      unfold Stretcher.loopWindows
      split_ifs with hcond
      · have hf := stepOnce_fields st pos
        have hlen := stepOnce_output_length st pos hres
        have hres2 : ∀ xs, ((st.stepOnce pos).re_fft.resynth xs).length =
            (st.stepOnce pos).window_len := by
          intro xs
          rw [hf.1, hf.2.1]
          exact hres xs
        have h := loopWindows_length fuel (st.stepOnce pos) (pos + st.half_window_len)
          hres2 (by rw [hf.2.1, hf.2.2.1]; exact hHW)
          (by rw [hf.2.2.2, hf.2.2.1, hlen]; omega)
        rw [hf.2.2.2, hf.2.2.1] at h
        exact h
      · omega

theorem next_window_length (st : Stretcher)
    (hres : ∀ xs, (st.re_fft.resynth xs).length = st.window_len)
    (hHW : st.half_window_len < st.window_len) :
    (st.next_window).1.length = st.samples_needed_per_window := by
  unfold Stretcher.next_window
  have h := loopWindows_length (st.samples_needed_per_window + st.half_window_len)
    st 0 hres hHW (by omega)
  have hf := loopWindows_fields (st.samples_needed_per_window + st.half_window_len) st 0
  rw [List.length_take, hf.2.2.2]
  omega

/-! ## Claim theorem: stretcher -/

/-- C8: `Stretcher::new(sample_rate, input, factor)` sets
`corrected_amp_factor = max(4, factor/4)`,
`sample_step_len = floor(8192 / (2 * factor))` (as the truncating
float-to-usize cast of the positive quotient), `window = hanning(8192)`,
and initializes the output buffer with `4096` zeros; and `next_window()`
always returns a buffer of exactly `W = 8192` samples — on the state built
by `new`, and on every state whose structural constants `next_window`
itself preserves. -/
theorem stretcher_spec (c : ℕ → ℕ → ℚ) (sqrtSqrtHalf : ℚ)
    (resynthF : List ℚ → List ℚ) (sample_rate : ℕ) (input : List ℚ) (factor : ℚ)
    (hres : ∀ xs, (resynthF xs).length = 8192) :
    (Stretcher.new c sqrtSqrtHalf resynthF sample_rate input factor).corrected_amp_factor =
      max 4 (factor / 4) ∧
    (Stretcher.new c sqrtSqrtHalf resynthF sample_rate input factor).sample_step_len =
      (⌊(8192 : ℚ) / (2 * factor)⌋).toNat ∧
    (Stretcher.new c sqrtSqrtHalf resynthF sample_rate input factor).re_fft.window =
      hanning c 8192 ∧
    (Stretcher.new c sqrtSqrtHalf resynthF sample_rate input factor).output_buf =
      List.replicate 4096 0 ∧
    ((Stretcher.new c sqrtSqrtHalf resynthF sample_rate input factor).next_window).1.length =
      8192 ∧
    (∀ st : Stretcher,
      (∀ xs, (st.re_fft.resynth xs).length = st.window_len) →
      st.half_window_len < st.window_len →
      (st.next_window).1.length = st.samples_needed_per_window) ∧
    (∀ st : Stretcher,
      (st.next_window).2.samples_needed_per_window = st.samples_needed_per_window ∧
      (st.next_window).2.half_window_len = st.half_window_len ∧
      (st.next_window).2.window_len = st.window_len ∧
      (st.next_window).2.re_fft = st.re_fft) := by
  have hwl : (hanning c 8192).length = 8192 := hanning_length c 8192
  refine ⟨rfl, ?_, ?_, ?_, ?_, ?_, ?_⟩
  · show f32toUsize (((hanning c 8192).length : ℚ) / (factor * 2)) = _
    rw [hwl]
    unfold f32toUsize
    norm_num [mul_comm]
  · simp only [Stretcher.new]
  · show List.replicate ((hanning c 8192).length / 2) (0 : ℚ) = _
    have h2 : (8192 : ℕ) / 2 = 4096 := by norm_num
    rw [hwl, h2]
  · refine (next_window_length _ ?_ ?_).trans ?_
    · intro xs
      simp only [Stretcher.new]
      rw [hwl]
      exact hres xs
    · simp only [Stretcher.new]
      rw [hwl]
      norm_num
    · simp only [Stretcher.new]
      exact hwl
  · intro st hr hHW
    exact next_window_length st hr hHW
  · intro st
    unfold Stretcher.next_window
    have hf := loopWindows_fields (st.samples_needed_per_window + st.half_window_len) st 0
    exact ⟨hf.2.2.2, hf.2.2.1, hf.2.1, hf.1⟩

/-- Witness for `stretcher_spec` with a length-8192 constant resynthesis
function. -/
theorem stretcher_spec_witness :
    (∀ xs : List ℚ, ((fun _ : List ℚ => List.replicate 8192 (0 : ℚ)) xs).length = 8192) ∧
      (Stretcher.new (fun _ _ => 0) 0 (fun _ : List ℚ => List.replicate 8192 (0 : ℚ))
        44100 [] 1).corrected_amp_factor = max 4 ((1 : ℚ) / 4) :=
  ⟨fun _ => List.length_replicate 8192 0,
   (stretcher_spec (fun _ _ => 0) 0 (fun _ : List ℚ => List.replicate 8192 (0 : ℚ))
     44100 [] 1 (fun _ => List.length_replicate 8192 0)).1⟩

end Sasa

